import Mathlib

/-!
# pod-meta-exporter: the metadata writer and the pod tracker

A shallow embedding of `internal/file/pod_event_handler.go` and
`internal/k8s/pod_tracker.go`.

* The file system is explicit state (`World`): a map from paths to file contents,
  together with the lines written to the logger.
* Points in time (`time.Time`) and durations (`time.Duration`) are integers
  (nanoseconds); `now.Before(t)` is `now < t`.
* Functions of the Go standard library whose result is not determined by the
  repository (`filepath.Join`, `filepath.Glob`, the bytes written by
  `json.Encoder.Encode`) are fields of `StdLib`; run-time failures of
  `os.Create`, `Encode` and `os.Remove` are chosen by a `Faults` oracle.
* A nil `*v1.Pod` is `none`; dereferencing it is the outcome `panicked`.
-/

namespace PodMetaExporter

/-! ## Data model (`exporter.go`) -/

namespace watch

/-- The Go type `watch.EventType`, a string. -/
abbrev EventType := String

def Added : EventType := "ADDED"
def Modified : EventType := "MODIFIED"
def Deleted : EventType := "DELETED"
def Bookmark : EventType := "BOOKMARK"
def Error : EventType := "ERROR"

end watch

/-- The part of `v1.Pod` the exporter reads: the two identity fields of the object
metadata; `Rest` stands for every other field of the document. -/
structure Pod where
  Namespace : String
  Name : String
  Rest : String
deriving DecidableEq

/-- The Go struct `exporter.PodEvent`; `Meta` is a pointer and may be nil. -/
structure PodEvent where
  Meta : Option Pod
  Typ : watch.EventType
deriving DecidableEq

/-! ## Environment -/

/-- State outside the process: the files on disk and the logger output. -/
structure World where
  files : String → Option String
  log : List String

/-- Standard-library functions used by the writer. -/
structure StdLib where
  /-- The function `filepath.Join(dir, name)`. -/
  Join : String → String → String
  /-- The function `filepath.Glob(pattern)` on a given disk: the matching paths, or
  an error for a malformed pattern. -/
  Glob : (String → Option String) → String → Except String (List String)
  /-- The bytes `json.NewEncoder(file).Encode(pod)` writes. -/
  Encode : Pod → String

/-- Run-time failures of the file operations during one call. `removeErr i path` is the
failure of the `i`-th `os.Remove` of a loop; `encodeErr` gives the error and the
content left in the file. -/
structure Faults where
  createErr : String → Option String
  encodeErr : String → Pod → Option (String × String)
  removeErr : Nat → String → Option String

/-- No operation fails. -/
def Faults.none : Faults :=
  { createErr := fun _ => Option.none
    encodeErr := fun _ _ => Option.none
    removeErr := fun _ _ => Option.none }

/-- Result of a call that may panic on a nil pointer. -/
inductive Outcome where
  | returned (err : Option String)
  | panicked
deriving DecidableEq

/-- Replace the content of one path. -/
def World.setFile (wd : World) (path : String) (content : Option String) : World :=
  { wd with files := fun q => if q = path then content else wd.files q }

/-- The call `logger.Printf`. -/
def World.printf (wd : World) (line : String) : World :=
  { wd with log := wd.log ++ [line] }

/-- The call `os.Create(path)`: creates the file or truncates it. -/
def osCreate (F : Faults) (wd : World) (path : String) : World × Option String :=
  match F.createErr path with
  | some e => (wd, some e)
  | Option.none => (wd.setFile path (some ""), Option.none)

/-- The call `os.Remove(path)` issued as the `i`-th removal of a loop. -/
def osRemove (F : Faults) (i : Nat) (wd : World) (path : String) : World × Option String :=
  match wd.files path with
  | Option.none => (wd, some ("remove " ++ path ++ ": no such file or directory"))
  | some _ =>
    match F.removeErr i path with
    | some e => (wd, some e)
    | Option.none => (wd.setFile path Option.none, Option.none)

/-- The call `json.NewEncoder(file).Encode(pod)` on the freshly created file. -/
def jsonEncode (L : StdLib) (F : Faults) (wd : World) (path : String) (pod : Pod) :
    World × Option String :=
  match F.encodeErr path pod with
  | some (e, left) => (wd.setFile path (some left), some e)
  | Option.none => (wd.setFile path (some (L.Encode pod)), Option.none)

/-! ## The writer (`internal/file/pod_event_handler.go`) -/

def gloggingPattern : String := "*.meta"

/-- The result of `filepath.Match(gloggingPattern, name)` for a name: `*` stands for a
run of characters other than the separator, and the literal `.meta` follows it. -/
def matchesGloggingPattern (name : String) : Bool :=
  ".meta".toList.isSuffixOf name.toList && !name.toList.contains '/'

structure fileToDelete where
  fullname : String
  deleteAt : Int
deriving DecidableEq

structure PodMetaWriter where
  retention : Int
  directory : String
  filesToDelete : List fileToDelete

/-- The function `filenameForPod` on a non-nil pod: `fmt.Sprintf("%s_%s.meta", ...)`. -/
def filenameForPod (podMeta : Pod) : String :=
  podMeta.Namespace ++ "_" ++ podMeta.Name ++ ".meta"

/-- Path of the snapshot file of a pod: `filepath.Join(w.directory, filenameForPod(podMeta))`. -/
def PodMetaWriter.fullname (L : StdLib) (w : PodMetaWriter) (podMeta : Pod) : String :=
  L.Join w.directory (filenameForPod podMeta)

/-- Loop of `removeAllMetaFiles` over the globbed paths; `i` counts the iterations. -/
def removeAllMetaFiles.loop (F : Faults) : List String → Nat → World → World
  | [], _, wd => wd
  | file :: rest, i, wd =>
    match (osRemove F i wd file).2 with
    | some err =>
      removeAllMetaFiles.loop F rest (i + 1)
        ((osRemove F i wd file).1.printf ("Error deleting file " ++ file ++ ": " ++ err))
    | Option.none => removeAllMetaFiles.loop F rest (i + 1) (osRemove F i wd file).1

def removeAllMetaFiles (L : StdLib) (F : Faults) (w : PodMetaWriter) (wd : World) :
    World × Option String :=
  match L.Glob wd.files (L.Join w.directory gloggingPattern) with
  | Except.error err => (wd, some err)
  | Except.ok files => (removeAllMetaFiles.loop F files 0 wd, Option.none)

/-- The constructor; the error of `removeAllMetaFiles` is dropped as in the source. -/
def NewPodMetaWriter (L : StdLib) (F : Faults) (directory : String) (retention : Int)
    (wd : World) : PodMetaWriter × World :=
  let writer : PodMetaWriter :=
    { directory := directory, retention := retention, filesToDelete := [] }
  (writer, (removeAllMetaFiles L F writer wd).1)

def createOrUpdateFile (L : StdLib) (F : Faults) (w : PodMetaWriter) (wd : World)
    (podMeta : Option Pod) : World × Outcome :=
  match podMeta with
  | Option.none => (wd, Outcome.panicked)
  | some pod =>
    match (osCreate F wd (w.fullname L pod)).2 with
    | some err =>
      ((osCreate F wd (w.fullname L pod)).1,
        Outcome.returned (some ("error creating file '" ++ w.fullname L pod ++ "': " ++ err)))
    | Option.none =>
      ((jsonEncode L F (osCreate F wd (w.fullname L pod)).1 (w.fullname L pod) pod).1,
        Outcome.returned (jsonEncode L F (osCreate F wd (w.fullname L pod)).1
          (w.fullname L pod) pod).2)

/-- The method `scheduleForDeletion`; `now` is its reading of `time.Now()`.
Gives `none` when the nil pod is dereferenced. -/
def scheduleForDeletion (L : StdLib) (now : Int) (w : PodMetaWriter) (podMeta : Option Pod) :
    Option PodMetaWriter :=
  match podMeta with
  | Option.none => Option.none
  | some pod =>
    some { w with filesToDelete :=
      w.filesToDelete ++ [{ fullname := w.fullname L pod, deleteAt := now + w.retention }] }

/-- Loop of `deleteOldFiles`; the counter is both the index `i` and `filesRemoved`. -/
def deleteOldFiles.loop (F : Faults) (now : Int) : List fileToDelete → Nat → World → Nat × World
  | [], filesRemoved, wd => (filesRemoved, wd)
  | toDelete :: rest, filesRemoved, wd =>
    if now < toDelete.deleteAt then (filesRemoved, wd)
    else
      match (osRemove F filesRemoved wd toDelete.fullname).2 with
      | some err =>
        deleteOldFiles.loop F now rest (filesRemoved + 1)
          ((osRemove F filesRemoved wd toDelete.fullname).1.printf
            ("Error deleting file " ++ toDelete.fullname ++ ": " ++ err))
      | Option.none =>
        deleteOldFiles.loop F now rest (filesRemoved + 1)
          (osRemove F filesRemoved wd toDelete.fullname).1

/-- The method `deleteOldFiles`; `now` is its reading of `time.Now()`. -/
def deleteOldFiles (F : Faults) (now : Int) (w : PodMetaWriter) (wd : World) :
    PodMetaWriter × World :=
  ({ w with filesToDelete :=
      w.filesToDelete.drop (deleteOldFiles.loop F now w.filesToDelete 0 wd).1 },
    (deleteOldFiles.loop F now w.filesToDelete 0 wd).2)

/-- The method `Handle`. `sweepNow` is the clock read by `deleteOldFiles`, `scheduleNow`
the clock read afterwards by `scheduleForDeletion`. -/
def Handle (L : StdLib) (F : Faults) (sweepNow scheduleNow : Int) (w : PodMetaWriter)
    (wd : World) (event : PodEvent) : PodMetaWriter × World × Outcome :=
  if event.Typ = watch.Added then
    ((deleteOldFiles F sweepNow w wd).1,
      createOrUpdateFile L F (deleteOldFiles F sweepNow w wd).1
        (deleteOldFiles F sweepNow w wd).2 event.Meta)
  else if event.Typ = watch.Deleted then
    match scheduleForDeletion L scheduleNow (deleteOldFiles F sweepNow w wd).1 event.Meta with
    | some w2 => (w2, (deleteOldFiles F sweepNow w wd).2, Outcome.returned Option.none)
    | Option.none =>
      ((deleteOldFiles F sweepNow w wd).1, (deleteOldFiles F sweepNow w wd).2, Outcome.panicked)
  else
    ((deleteOldFiles F sweepNow w wd).1, (deleteOldFiles F sweepNow w wd).2,
      Outcome.returned Option.none)

/-! ## Sequences of `Handle` calls -/

/-- One call of `Handle`: the event, the two clock readings and the failures that
occur while it runs. -/
structure Call where
  faults : Faults
  sweepNow : Int
  scheduleNow : Int
  event : PodEvent

def handleCall (L : StdLib) (s : PodMetaWriter × World) (c : Call) : PodMetaWriter × World :=
  ((Handle L c.faults c.sweepNow c.scheduleNow s.1 s.2 c.event).1,
    (Handle L c.faults c.sweepNow c.scheduleNow s.1 s.2 c.event).2.1)

def handleAll (L : StdLib) (s : PodMetaWriter × World) (calls : List Call) :
    PodMetaWriter × World :=
  calls.foldl (handleCall L) s

/-- The clock readings of the calls never go back, starting from `T`. -/
def clockFrom (T : Int) : List Call → Prop
  | [] => True
  | c :: cs => T ≤ c.sweepNow ∧ c.sweepNow ≤ c.scheduleNow ∧ clockFrom c.scheduleNow cs

/-- Path of the snapshot file an event is about in a writer on `directory`; `none`
for an event without a pod. -/
def PodEvent.snapshotPath (L : StdLib) (directory : String) (e : PodEvent) : Option String :=
  e.Meta.map (fun pod => L.Join directory (filenameForPod pod))

/-- The last clock reading made by a sequence of calls that starts at `T`. -/
def lastClock (T : Int) (calls : List Call) : Int :=
  calls.foldl (fun _ c => c.scheduleNow) T

/-- The queue of a writer with retention `r` on `directory` whose clock has reached `T`:
tickets are in non-decreasing order of `deleteAt`, none later than `T + r`. -/
def QueueOrdered (r : Int) (directory : String) (T : Int) (s : PodMetaWriter × World) : Prop :=
  s.1.retention = r ∧ s.1.directory = directory ∧
  s.1.filesToDelete.Pairwise (fun a b => a.deleteAt ≤ b.deleteAt) ∧
  ∀ tk ∈ s.1.filesToDelete, tk.deleteAt ≤ T + r

/-! ## The tracker (`internal/k8s/pod_tracker.go`) -/

def allNamespaces : String := ""

/-- The constant `nodeSelectorTemplate` applied by `fmt.Sprintf` to a node name. -/
def nodeSelectorTemplate (node : String) : String := "spec.nodeName=" ++ node

/-- A `runtime.Object` delivered by a watch: a `*v1.Pod` (possibly a nil pointer), an
object of another type (named by `kind`), or the nil interface. -/
inductive RuntimeObject where
  | pod (p : Option Pod)
  | other (kind : String)
  | nil
deriving DecidableEq

namespace watch

/-- The Go struct `watch.Event`. -/
structure Event where
  Typ : EventType
  Object : RuntimeObject
deriving DecidableEq

end watch

/-- Which case of the `select` in `watchHandler` fires in one round of its loop:
the context is done, the result channel delivers an item, or it is closed. For a
delivered item, `taken` says whether the consumer ever receives the event that
`watchHandler` then offers on the unbuffered output channel. -/
inductive Select where
  | done
  | recv (event : watch.Event) (taken : Bool)
  | closed

/-- Errors that `watchHandler` returns: `context.Canceled` or
`apierrors.FromObject(event.Object)`. -/
inductive WatchError where
  | canceled
  | fromObject (obj : RuntimeObject)
deriving DecidableEq

/-- One execution of `watchHandler`: the events sent on the output channel, in
order, and the value returned; `result = none` when the goroutine is still
blocked at the end of the script. -/
structure HandlerRun where
  sent : List PodEvent
  result : Option (Option WatchError)

/-- The method `watchHandler`, run against the script of its `select` rounds.
Log lines are not recorded. -/
def watchHandler : List Select → HandlerRun
  | [] => { sent := [], result := none }
  | Select.done :: _ => { sent := [], result := some (some WatchError.canceled) }
  | Select.closed :: _ => { sent := [], result := some none }
  | Select.recv event taken :: rest =>
    if event.Typ = watch.Error then
      { sent := [], result := some (some (WatchError.fromObject event.Object)) }
    else if event.Typ = watch.Bookmark then watchHandler rest
    else
      match event.Object with
      | RuntimeObject.pod podMeta =>
        if taken then
          { sent := { Meta := podMeta, Typ := event.Typ } :: (watchHandler rest).sent
            result := (watchHandler rest).result }
        else { sent := [], result := none }
      | _ => watchHandler rest

/-- The forwarded events as the specification words them: of the items that come
before the first error item, those that are no bookmark and carry a pod, each with
its type and payload. -/
def forwardedEvents (items : List watch.Event) : List PodEvent :=
  (items.takeWhile (fun ev => decide (ev.Typ ≠ watch.Error))).filterMap (fun ev =>
    if ev.Typ = watch.Bookmark then none
    else
      match ev.Object with
      | RuntimeObject.pod podMeta => some { Meta := podMeta, Typ := ev.Typ }
      | _ => none)

/-- The Go struct `PodTracker`; the client and the logger carry no state of the model. -/
structure PodTracker where
  running : Bool
deriving DecidableEq

def NewPodTracker : PodTracker := { running := false }

/-- What one round of the `for` loop of `watcherWorker` meets: the context is already
done; `Watch(options)` fails (`refused` is `utilnet.IsConnectionRefused(err)`); or the
watch opens and `watchHandler` runs against `script`. -/
inductive Attempt where
  | ctxDone
  | openFailed (refused : Bool)
  | watching (script : List Select)

/-- Visible steps of the worker goroutine. -/
inductive Effect where
  | send (e : PodEvent)
  | closeEvents
  | clearRunning
  | fatal
deriving DecidableEq

/-- How the script leaves the worker: it returned, `logger.Fatalf` ended the process,
or it is still blocked. -/
inductive WorkerEnd where
  | returned
  | exited
  | blocked
deriving DecidableEq

/-- The `for` loop of `watcherWorker`. `expiredOrGone` is
`apierrors.IsResourceExpired(err) || apierrors.IsGone(err)` on the error made from
a status object. -/
def watcherWorker.loop (expiredOrGone : RuntimeObject → Bool) :
    List Attempt → List Effect × WorkerEnd
  | [] => ([], WorkerEnd.blocked)
  | Attempt.ctxDone :: _ => ([], WorkerEnd.returned)
  | Attempt.openFailed refused :: rest =>
    if refused then watcherWorker.loop expiredOrGone rest else ([], WorkerEnd.returned)
  | Attempt.watching script :: rest =>
    match (watchHandler script).result with
    | none => ((watchHandler script).sent.map Effect.send, WorkerEnd.blocked)
    | some none =>
      ((watchHandler script).sent.map Effect.send ++ (watcherWorker.loop expiredOrGone rest).1,
        (watcherWorker.loop expiredOrGone rest).2)
    | some (some (WatchError.fromObject obj)) =>
      if expiredOrGone obj then
        ((watchHandler script).sent.map Effect.send ++ (watcherWorker.loop expiredOrGone rest).1,
          (watcherWorker.loop expiredOrGone rest).2)
      else ((watchHandler script).sent.map Effect.send ++ [Effect.fatal], WorkerEnd.exited)
    | some (some WatchError.canceled) =>
      ((watchHandler script).sent.map Effect.send, WorkerEnd.returned)

/-- The method `watcherWorker`: the loop, then the deferred function when the loop
returns (`close(events)` and then `t.running = false`). -/
def watcherWorker (expiredOrGone : RuntimeObject → Bool) (script : List Attempt) :
    List Effect × WorkerEnd :=
  match (watcherWorker.loop expiredOrGone script).2 with
  | WorkerEnd.returned =>
    ((watcherWorker.loop expiredOrGone script).1 ++ [Effect.closeEvents, Effect.clearRunning],
      WorkerEnd.returned)
  | WorkerEnd.exited => ((watcherWorker.loop expiredOrGone script).1, WorkerEnd.exited)
  | WorkerEnd.blocked => ((watcherWorker.loop expiredOrGone script).1, WorkerEnd.blocked)

/-- What `TrackPods` gives back: the tracker afterwards, the channel returned (`fresh`
names the channel that `make` allocates), the error, and the goroutine started, given
by its channel and field selector. -/
structure TrackResult where
  tracker : PodTracker
  events : Option Nat
  err : Option String
  worker : Option (Nat × String)
deriving DecidableEq

def TrackPods (t : PodTracker) (fresh : Nat) (node : String) : TrackResult :=
  if t.running then { tracker := t, events := none, err := some "already tracking", worker := none }
  else
    { tracker := { t with running := true }
      events := some fresh
      err := none
      worker := some (fresh, nodeSelectorTemplate node) }

/-- A tracking session seen from outside: the tracker, whether the event channel is
closed, and the events delivered on it. -/
structure Session where
  tracker : PodTracker
  closed : Bool
  delivered : List PodEvent

/-- One step of the worker acting on the session. -/
def Session.step (s : Session) : Effect → Session
  | Effect.send e => { s with delivered := s.delivered ++ [e] }
  | Effect.closeEvents => { s with closed := true }
  | Effect.clearRunning => { s with tracker := { s.tracker with running := false } }
  | Effect.fatal => s

def Session.run (s : Session) (steps : List Effect) : Session :=
  steps.foldl Session.step s

/-! ## Concrete environment used in the examples -/

/-- A join for a clean directory and a plain file name. -/
def exampleLib : StdLib :=
  { Join := fun d f => d ++ "/" ++ f
    Glob := fun _ _ => Except.ok []
    Encode := fun p => p.Rest }

def emptyWorld : World := { files := fun _ => Option.none, log := [] }

def etcdPod : Pod :=
  { Namespace := "kube-system", Name := "etcd-docker-desktop", Rest := "etcd-json" }

def etcdPath : String := "/var/kube_meta/kube-system_etcd-docker-desktop.meta"

/-- A call for `etcdPod` with one clock reading and no failure. -/
def exampleCall (t : Int) (ty : watch.EventType) : Call :=
  { faults := Faults.none, sweepNow := t, scheduleNow := t
    event := { Meta := some etcdPod, Typ := ty } }

/-- The call `Handle(PodEvent{Type: watch.Bookmark})` of the tests: no pod. -/
def bookmarkCall (t : Int) : Call :=
  { faults := Faults.none, sweepNow := t, scheduleNow := t
    event := { Meta := Option.none, Typ := watch.Bookmark } }

/-- A writer with retention 3, freshly constructed on an empty disk. -/
def exampleWriter : PodMetaWriter × World :=
  NewPodMetaWriter exampleLib Faults.none "/var/kube_meta" 3 emptyWorld

/-- A disk with a stale snapshot and another file. -/
def staleWorld : World :=
  { files := fun q =>
      if q = "/tmp/d/test-file.meta" then some ""
      else if q = "/tmp/d/notes.txt" then some "keep" else Option.none
    log := [] }

/-- A library whose `Glob` lists the stale snapshot when it is on the disk. -/
def staleLib : StdLib :=
  { Join := fun d f => d ++ "/" ++ f
    Glob := fun files pattern =>
      if pattern = "/tmp/d/*.meta" then
        Except.ok (["/tmp/d/test-file.meta"].filter (fun q => (files q).isSome))
      else Except.ok []
    Encode := fun p => p.Rest }

/-- A disk with a stale snapshot in the directory `/tmp/d[x`. -/
def bracketWorld : World :=
  { files := fun q => if q = "/tmp/d[x/s.meta" then some "old" else Option.none
    log := [] }

/-- A library whose `Glob` agrees with `filepath.Glob` on the pattern `/tmp/d[x/*.meta`:
the `[` opens a character class that is never closed, which is `ErrBadPattern`. -/
def bracketLib : StdLib :=
  { Join := fun d f => d ++ "/" ++ f
    Glob := fun _ pattern =>
      if pattern.toList.contains '[' && !pattern.toList.contains ']' then
        Except.error "syntax error in pattern"
      else Except.ok []
    Encode := fun p => p.Rest }

/-- Removing `/d/a.meta` fails, every other operation succeeds. -/
def denyA : Faults :=
  { createErr := fun _ => Option.none
    encodeErr := fun _ _ => Option.none
    removeErr := fun _ q => if q = "/d/a.meta" then some "permission denied" else Option.none }

/-- A writer with two due tickets and one later ticket. -/
def threeTickets : PodMetaWriter :=
  { retention := 3, directory := "/d"
    filesToDelete := [⟨"/d/a.meta", 1⟩, ⟨"/d/b.meta", 2⟩, ⟨"/d/c.meta", 10⟩] }

def fullWorld : World := { files := fun _ => some "x", log := [] }

/-- Items of a watch: a pod added, a bookmark, a foreign object, an error, a pod deleted. -/
def exampleItems : List watch.Event :=
  [ { Typ := watch.Added, Object := RuntimeObject.pod (some etcdPod) },
    { Typ := watch.Bookmark, Object := RuntimeObject.pod (some etcdPod) },
    { Typ := watch.Modified, Object := RuntimeObject.other "*v1.ReplicationController" },
    { Typ := watch.Error, Object := RuntimeObject.other "*v1.Status" },
    { Typ := watch.Deleted, Object := RuntimeObject.pod (some etcdPod) } ]

/-! ## The sweep of the deletion queue -/

theorem printf_files (wd : World) (s : String) : (wd.printf s).files = wd.files := rfl

theorem setFile_files (wd : World) (p : String) (c : Option String) (q : String) :
    (wd.setFile p c).files q = if q = p then c else wd.files q := rfl

theorem osRemove_files_ne (F : Faults) (i : Nat) (wd : World) (p q : String) (h : q ≠ p) :
    (osRemove F i wd p).1.files q = wd.files q := by
  unfold osRemove
  split
  · rfl
  · split
    · rfl
    · simp [setFile_files, h]

theorem osRemove_files_sub (F : Faults) (i : Nat) (wd : World) (p q : String) (c : String)
    (h : (osRemove F i wd p).1.files q = some c) : wd.files q = some c := by
  unfold osRemove at h
  split at h
  · exact h
  · split at h
    · exact h
    · simp only [setFile_files] at h
      split at h
      · cases h
      · exact h

theorem osRemove_files_self (F : Faults) (i : Nat) (wd : World) (p : String)
    (h : F.removeErr i p = none) : (osRemove F i wd p).1.files p = none := by
  unfold osRemove
  split
  · assumption
  · simp [h, setFile_files]

/-- One due ticket: the loop continues from a world whose files are those left by `os.Remove`. -/
theorem deleteOldFiles_loop_cons_due (F : Faults) (now : Int) (t : fileToDelete)
    (rest : List fileToDelete) (k : Nat) (wd : World) (h : t.deleteAt ≤ now) :
    ∃ wd1, wd1.files = (osRemove F k wd t.fullname).1.files ∧
      deleteOldFiles.loop F now (t :: rest) k wd = deleteOldFiles.loop F now rest (k + 1) wd1 := by
  have h2 : ¬ now < t.deleteAt := not_lt.mpr h
  simp only [deleteOldFiles.loop, h2, if_false]
  split
  · exact ⟨_, printf_files _ _, rfl⟩
  · exact ⟨_, rfl, rfl⟩

theorem deleteOldFiles_loop_cons_future (F : Faults) (now : Int) (t : fileToDelete)
    (rest : List fileToDelete) (k : Nat) (wd : World) (h : now < t.deleteAt) :
    deleteOldFiles.loop F now (t :: rest) k wd = (k, wd) := by
  simp [deleteOldFiles.loop, h]

/-- Tickets the sweep at time `now` processes: the longest due front of the queue. -/
theorem deleteOldFiles_loop_count (F : Faults) (now : Int) (q : List fileToDelete) :
    ∀ (k : Nat) (wd : World), (deleteOldFiles.loop F now q k wd).1 =
      k + (q.takeWhile (fun t => decide (t.deleteAt ≤ now))).length := by
  induction q with
  | nil => intro k wd; simp [deleteOldFiles.loop]
  | cons t rest ih =>
    intro k wd
    by_cases h : t.deleteAt ≤ now
    · obtain ⟨wd1, _, e⟩ := deleteOldFiles_loop_cons_due F now t rest k wd h
      rw [e, ih]
      simp [List.takeWhile_cons, h]
      omega
    · rw [deleteOldFiles_loop_cons_future F now t rest k wd (not_le.mp h)]
      simp [List.takeWhile_cons, h]

theorem deleteOldFiles_queue (F : Faults) (now : Int) (w : PodMetaWriter) (wd : World) :
    (deleteOldFiles F now w wd).1.filesToDelete =
      w.filesToDelete.dropWhile (fun t => decide (t.deleteAt ≤ now)) := by
  simp only [deleteOldFiles, deleteOldFiles_loop_count, Nat.zero_add]
  induction w.filesToDelete with
  | nil => rfl
  | cons t rest ih =>
    by_cases h : t.deleteAt ≤ now
    · simp [List.takeWhile_cons, List.dropWhile_cons, h, ih]
    · simp [List.takeWhile_cons, List.dropWhile_cons, h]

/-- The sweep never creates a file and never changes a content. -/
theorem deleteOldFiles_loop_files_sub (F : Faults) (now : Int) (q : List fileToDelete)
    (p c : String) : ∀ (k : Nat) (wd : World),
      (deleteOldFiles.loop F now q k wd).2.files p = some c → wd.files p = some c := by
  induction q with
  | nil => intro k wd h; simpa [deleteOldFiles.loop] using h
  | cons t rest ih =>
    intro k wd h
    by_cases hd : t.deleteAt ≤ now
    · obtain ⟨wd1, hf, e⟩ := deleteOldFiles_loop_cons_due F now t rest k wd hd
      rw [e] at h
      have h1 := ih (k + 1) wd1 h
      rw [hf] at h1
      exact osRemove_files_sub F k wd t.fullname p c h1
    · rw [deleteOldFiles_loop_cons_future F now t rest k wd (not_le.mp hd)] at h
      exact h

/-- A path named by no processed ticket is left alone by the sweep. -/
theorem deleteOldFiles_loop_files_other (F : Faults) (now : Int) (q : List fileToDelete)
    (p : String) : ∀ (k : Nat) (wd : World),
      (∀ t ∈ q.takeWhile (fun t => decide (t.deleteAt ≤ now)), t.fullname ≠ p) →
      (deleteOldFiles.loop F now q k wd).2.files p = wd.files p := by
  induction q with
  | nil => intro k wd _; simp [deleteOldFiles.loop]
  | cons t rest ih =>
    intro k wd h
    by_cases hd : t.deleteAt ≤ now
    · obtain ⟨wd1, hf, e⟩ := deleteOldFiles_loop_cons_due F now t rest k wd hd
      have ht : t.fullname ≠ p := h t (by simp [List.takeWhile_cons, hd])
      have hrest : ∀ u ∈ rest.takeWhile (fun t => decide (t.deleteAt ≤ now)), u.fullname ≠ p := by
        intro u hu
        exact h u (by simp [List.takeWhile_cons, hd, hu])
      rw [e, ih (k + 1) wd1 hrest, hf]
      exact osRemove_files_ne F k wd t.fullname p (Ne.symm ht)
    · rw [deleteOldFiles_loop_cons_future F now t rest k wd (not_le.mp hd)]

theorem deleteOldFiles_loop_files_none (F : Faults) (now : Int) (q : List fileToDelete)
    (p : String) (k : Nat) (wd : World) (h : wd.files p = none) :
    (deleteOldFiles.loop F now q k wd).2.files p = none := by
  cases hc : (deleteOldFiles.loop F now q k wd).2.files p with
  | none => rfl
  | some c =>
    have := deleteOldFiles_loop_files_sub F now q p c k wd hc
    rw [h] at this
    cases this

/-- A processed ticket whose removal does not fail leaves its path absent, whatever
happens to the tickets before and after it. -/
theorem deleteOldFiles_loop_files_removed (F : Faults) (now : Int) (q : List fileToDelete)
    (p : String) (hF : ∀ i, F.removeErr i p = none) : ∀ (k : Nat) (wd : World),
      (∃ t ∈ q.takeWhile (fun t => decide (t.deleteAt ≤ now)), t.fullname = p) →
      (deleteOldFiles.loop F now q k wd).2.files p = none := by
  induction q with
  | nil => intro k wd h; simp at h
  | cons t rest ih =>
    intro k wd h
    by_cases hd : t.deleteAt ≤ now
    · obtain ⟨wd1, hf, e⟩ := deleteOldFiles_loop_cons_due F now t rest k wd hd
      rw [e]
      by_cases ht : t.fullname = p
      · apply deleteOldFiles_loop_files_none
        rw [hf, ht]
        exact osRemove_files_self F k wd p (hF k)
      · apply ih
        obtain ⟨u, hu, hup⟩ := h
        simp only [List.takeWhile_cons, hd, decide_True, if_true, List.mem_cons] at hu
        rcases hu with rfl | hu
        · exact absurd hup ht
        · exact ⟨u, hu, hup⟩
    · obtain ⟨u, hu, _⟩ := h
      simp [List.takeWhile_cons, hd] at hu

theorem removeAllMetaFiles_loop_files (F : Faults) (hF : ∀ i p, F.removeErr i p = none)
    (ms : List String) (q : String) : ∀ (i : Nat) (wd : World),
      (removeAllMetaFiles.loop F ms i wd).files q = if q ∈ ms then none else wd.files q := by
  induction ms with
  | nil => intro i wd; simp [removeAllMetaFiles.loop]
  | cons m rest ih =>
    intro i wd
    have hstep : ∃ wd1, wd1.files = (osRemove F i wd m).1.files ∧
        removeAllMetaFiles.loop F (m :: rest) i wd = removeAllMetaFiles.loop F rest (i + 1) wd1 := by
      simp only [removeAllMetaFiles.loop]
      split
      · exact ⟨_, printf_files _ _, rfl⟩
      · exact ⟨_, rfl, rfl⟩
    obtain ⟨wd1, hf, e⟩ := hstep
    rw [e, ih (i + 1) wd1, hf]
    by_cases hq : q = m
    · subst hq
      simp [osRemove_files_self F i wd q (hF i q)]
    · by_cases hr : q ∈ rest
      · simp [hr]
      · simp [hr, hq, osRemove_files_ne F i wd m q hq]

/-- C1: an `Added` event carrying a pod, when `os.Create` and `Encode` succeed, makes
`Handle` return nil, and the file `<directory>/<ns>_<n>.meta` then holds exactly the
serialization of the pod, whatever the file held before. -/
theorem Handle_added_writes_snapshot (L : StdLib) (F : Faults) (sweepNow scheduleNow : Int)
    (w : PodMetaWriter) (wd : World) (pod : Pod)
    (hcreate : F.createErr (L.Join w.directory (pod.Namespace ++ "_" ++ pod.Name ++ ".meta")) = none)
    (hwrite : F.encodeErr (L.Join w.directory (pod.Namespace ++ "_" ++ pod.Name ++ ".meta")) pod
      = none) :
    (Handle L F sweepNow scheduleNow w wd { Meta := some pod, Typ := watch.Added }).2.2
        = Outcome.returned none ∧
    (Handle L F sweepNow scheduleNow w wd { Meta := some pod, Typ := watch.Added }).2.1.files
        (L.Join w.directory (pod.Namespace ++ "_" ++ pod.Name ++ ".meta")) = some (L.Encode pod) := by
  have hp : (deleteOldFiles F sweepNow w wd).1.fullname L pod
      = L.Join w.directory (pod.Namespace ++ "_" ++ pod.Name ++ ".meta") := rfl
  simp [Handle, createOrUpdateFile, osCreate, jsonEncode, hp, hcreate, hwrite, setFile_files]

theorem Handle_added_writes_snapshot_witness :
    (Handle exampleLib Faults.none 10 10
        { retention := 60, directory := "/var/kube_meta", filesToDelete := [] }
        { files := fun _ => some "stale", log := [] }
        { Meta := some etcdPod, Typ := watch.Added }).2.2 = Outcome.returned none ∧
    (Handle exampleLib Faults.none 10 10
        { retention := 60, directory := "/var/kube_meta", filesToDelete := [] }
        { files := fun _ => some "stale", log := [] }
        { Meta := some etcdPod, Typ := watch.Added }).2.1.files
      "/var/kube_meta/kube-system_etcd-docker-desktop.meta" = some "etcd-json" :=
  Handle_added_writes_snapshot exampleLib Faults.none 10 10
    { retention := 60, directory := "/var/kube_meta", filesToDelete := [] }
    { files := fun _ => some "stale", log := [] } etcdPod rfl rfl

theorem deleteOldFiles_files_sub (F : Faults) (now : Int) (w : PodMetaWriter) (wd : World)
    (p c : String) (h : (deleteOldFiles F now w wd).2.files p = some c) : wd.files p = some c :=
  deleteOldFiles_loop_files_sub F now w.filesToDelete p c 0 wd h

theorem deleteOldFiles_files_other (F : Faults) (now : Int) (w : PodMetaWriter) (wd : World)
    (p : String)
    (h : ∀ t ∈ w.filesToDelete.takeWhile (fun t => decide (t.deleteAt ≤ now)), t.fullname ≠ p) :
    (deleteOldFiles F now w wd).2.files p = wd.files p :=
  deleteOldFiles_loop_files_other F now w.filesToDelete p 0 wd h

theorem deleteOldFiles_files_removed (F : Faults) (now : Int) (w : PodMetaWriter) (wd : World)
    (p : String) (hF : ∀ i, F.removeErr i p = none)
    (h : ∃ t ∈ w.filesToDelete.takeWhile (fun t => decide (t.deleteAt ≤ now)), t.fullname = p) :
    (deleteOldFiles F now w wd).2.files p = none :=
  deleteOldFiles_loop_files_removed F now w.filesToDelete p hF 0 wd h

theorem deleteOldFiles_files_none (F : Faults) (now : Int) (w : PodMetaWriter) (wd : World)
    (p : String) (h : wd.files p = none) : (deleteOldFiles F now w wd).2.files p = none :=
  deleteOldFiles_loop_files_none F now w.filesToDelete p 0 wd h

theorem watch.deleted_ne_added : watch.Deleted ≠ watch.Added := by decide

theorem Handle_added (L : StdLib) (F : Faults) (sweepNow scheduleNow : Int) (w : PodMetaWriter)
    (wd : World) (event : PodEvent) (h : event.Typ = watch.Added) :
    Handle L F sweepNow scheduleNow w wd event =
      ((deleteOldFiles F sweepNow w wd).1,
        createOrUpdateFile L F (deleteOldFiles F sweepNow w wd).1
          (deleteOldFiles F sweepNow w wd).2 event.Meta) := by
  simp [Handle, h]

theorem Handle_deleted (L : StdLib) (F : Faults) (sweepNow scheduleNow : Int)
    (w : PodMetaWriter) (wd : World) (event : PodEvent) (h : event.Typ = watch.Deleted) :
    Handle L F sweepNow scheduleNow w wd event =
      match scheduleForDeletion L scheduleNow (deleteOldFiles F sweepNow w wd).1 event.Meta with
      | some w2 => (w2, (deleteOldFiles F sweepNow w wd).2, Outcome.returned Option.none)
      | Option.none =>
        ((deleteOldFiles F sweepNow w wd).1, (deleteOldFiles F sweepNow w wd).2,
          Outcome.panicked) := by
  simp [Handle, h, watch.deleted_ne_added]

theorem Handle_other (L : StdLib) (F : Faults) (sweepNow scheduleNow : Int) (w : PodMetaWriter)
    (wd : World) (event : PodEvent) (ha : event.Typ ≠ watch.Added)
    (hd : event.Typ ≠ watch.Deleted) :
    Handle L F sweepNow scheduleNow w wd event =
      ((deleteOldFiles F sweepNow w wd).1, (deleteOldFiles F sweepNow w wd).2,
        Outcome.returned none) := by
  simp [Handle, ha, hd]

/-- C5: `Handle` returns a non-nil error exactly when the event is `Added`, carries a
pod, and `os.Create` or `Encode` fails for its snapshot file. Whatever removals fail,
the sweep pops every due ticket at the front of the queue (the queue afterwards is the
old one without its due front, plus the ticket a `Deleted` event appends), and every
due front ticket whose own removal does not fail has its file gone after the sweep. -/
theorem Handle_error_iff_write_fails (L : StdLib) (F : Faults) (sweepNow scheduleNow : Int)
    (w : PodMetaWriter) (wd : World) (event : PodEvent) :
    ((∃ msg, (Handle L F sweepNow scheduleNow w wd event).2.2 = Outcome.returned (some msg)) ↔
      (event.Typ = watch.Added ∧ ∃ pod, event.Meta = some pod ∧
        (F.createErr (w.fullname L pod) ≠ none ∨ F.encodeErr (w.fullname L pod) pod ≠ none))) ∧
    (Handle L F sweepNow scheduleNow w wd event).1.filesToDelete =
      w.filesToDelete.dropWhile (fun t => decide (t.deleteAt ≤ sweepNow)) ++
        (if event.Typ = watch.Added then []
         else if event.Typ = watch.Deleted then
          match event.Meta with
          | some pod => [{ fullname := w.fullname L pod, deleteAt := scheduleNow + w.retention }]
          | none => []
         else []) ∧
    (∀ t ∈ w.filesToDelete.takeWhile (fun t => decide (t.deleteAt ≤ sweepNow)),
      (∀ i, F.removeErr i t.fullname = none) →
      (deleteOldFiles F sweepNow w wd).2.files t.fullname = none) := by
  have hq := deleteOldFiles_queue F sweepNow w wd
  have hp : ∀ pod, (deleteOldFiles F sweepNow w wd).1.fullname L pod = w.fullname L pod :=
    fun _ => rfl
  refine ⟨?_, ?_, ?_⟩
  · by_cases ha : event.Typ = watch.Added
    · cases hm : event.Meta with
      | none => simp [Handle, ha, hm, createOrUpdateFile]
      | some pod =>
        cases hc : F.createErr (w.fullname L pod) with
        | some e => simp [Handle, ha, hm, createOrUpdateFile, osCreate, hp, hc]
        | none =>
          cases he : F.encodeErr (w.fullname L pod) pod with
          | some e => simp [Handle, ha, hm, createOrUpdateFile, osCreate, jsonEncode, hp, hc, he]
          | none => simp [Handle, ha, hm, createOrUpdateFile, osCreate, jsonEncode, hp, hc, he]
    · by_cases hd : event.Typ = watch.Deleted
      · rw [Handle_deleted L F sweepNow scheduleNow w wd event hd]
        cases hm : event.Meta <;> simp [ha, scheduleForDeletion]
      · simp [Handle, ha, hd]
  · by_cases ha : event.Typ = watch.Added
    · simp [Handle, ha, hq]
    · by_cases hd : event.Typ = watch.Deleted
      · rw [Handle_deleted L F sweepNow scheduleNow w wd event hd]
        cases hm : event.Meta with
        | none => simp [ha, hd, scheduleForDeletion, hq]
        | some pod =>
          simp only [scheduleForDeletion, hq, hp, ha, hd, if_false, if_true]
          rfl
      · simp [Handle, ha, hd, hq]
  · intro t ht hF
    exact deleteOldFiles_files_removed F sweepNow w wd t.fullname hF ⟨t, ht, rfl⟩

/-- C6: an event that is neither `Added` nor `Deleted` makes `Handle` return nil with
exactly the effect of the sweep: every file present afterwards was present before with
the same content, and the queue afterwards is the old queue without its due front. -/
theorem Handle_other_event_is_sweep (L : StdLib) (F : Faults) (sweepNow scheduleNow : Int)
    (w : PodMetaWriter) (wd : World) (event : PodEvent)
    (hadd : event.Typ ≠ watch.Added) (hdel : event.Typ ≠ watch.Deleted) :
    Handle L F sweepNow scheduleNow w wd event =
      ((deleteOldFiles F sweepNow w wd).1, (deleteOldFiles F sweepNow w wd).2,
        Outcome.returned none) ∧
    (∀ path content,
      (Handle L F sweepNow scheduleNow w wd event).2.1.files path = some content →
      wd.files path = some content) ∧
    (Handle L F sweepNow scheduleNow w wd event).1.filesToDelete =
      w.filesToDelete.dropWhile (fun t => decide (t.deleteAt ≤ sweepNow)) ∧
    (Handle L F sweepNow scheduleNow w wd event).1.filesToDelete <:+ w.filesToDelete := by
  have h : Handle L F sweepNow scheduleNow w wd event =
      ((deleteOldFiles F sweepNow w wd).1, (deleteOldFiles F sweepNow w wd).2,
        Outcome.returned none) := Handle_other L F sweepNow scheduleNow w wd event hadd hdel
  refine ⟨h, ?_, ?_, ?_⟩
  · intro path content hc
    rw [h] at hc
    exact deleteOldFiles_files_sub F sweepNow w wd path content hc
  · rw [h]; exact deleteOldFiles_queue F sweepNow w wd
  · rw [h]
    show (deleteOldFiles F sweepNow w wd).1.filesToDelete <:+ w.filesToDelete
    rw [deleteOldFiles_queue]
    exact List.dropWhile_suffix _

/-- When `filepath.Glob` returns the list `ms` and no removal fails, the constructor
leaves every listed path absent and every other path as it was. -/
theorem NewPodMetaWriter_files_of_glob (L : StdLib) (F : Faults) (directory : String)
    (retention : Int) (wd : World) (ms : List String)
    (hglob : L.Glob wd.files (L.Join directory gloggingPattern) = Except.ok ms)
    (hremove : ∀ i p, F.removeErr i p = none) (path : String) :
    (NewPodMetaWriter L F directory retention wd).2.files path =
      if path ∈ ms then none else wd.files path := by
  simp only [NewPodMetaWriter, removeAllMetaFiles, hglob]
  exact removeAllMetaFiles_loop_files F hremove ms path 0 wd

/-- When `filepath.Glob` returns an error, the constructor removes nothing. -/
theorem NewPodMetaWriter_of_glob_error (L : StdLib) (F : Faults) (directory : String)
    (retention : Int) (wd : World) (err : String)
    (hglob : L.Glob wd.files (L.Join directory gloggingPattern) = Except.error err) :
    (NewPodMetaWriter L F directory retention wd).2 = wd := by
  simp only [NewPodMetaWriter, removeAllMetaFiles, hglob]

/-- C7 (as amended): let `filepath.Glob` succeed on `<directory>/*.meta` with a list made
of entries `<directory>/<name>` whose name matches `*.meta`, among them every such
entry that exists, and let no removal fail. After the constructor no entry of the
directory whose name matches `*.meta` exists, every other path is as it was, and the
deletion queue is empty. -/
theorem NewPodMetaWriter_removes_meta_files (L : StdLib) (F : Faults) (directory : String)
    (retention : Int) (wd : World) (ms : List String)
    (hglob : L.Glob wd.files (L.Join directory gloggingPattern) = Except.ok ms)
    (hall : ∀ name, matchesGloggingPattern name = true →
      wd.files (L.Join directory name) ≠ none → L.Join directory name ∈ ms)
    (honly : ∀ path ∈ ms, ∃ name, matchesGloggingPattern name = true ∧
      path = L.Join directory name)
    (hremove : ∀ i p, F.removeErr i p = none) :
    (∀ name, matchesGloggingPattern name = true →
      (NewPodMetaWriter L F directory retention wd).2.files (L.Join directory name) = none) ∧
    (∀ path, (¬ ∃ name, matchesGloggingPattern name = true ∧ path = L.Join directory name) →
      (NewPodMetaWriter L F directory retention wd).2.files path = wd.files path) ∧
    (NewPodMetaWriter L F directory retention wd).1.filesToDelete = [] := by
  have hfiles := NewPodMetaWriter_files_of_glob L F directory retention wd ms hglob hremove
  refine ⟨?_, ?_, rfl⟩
  · intro name hname
    rw [hfiles]
    by_cases hm : L.Join directory name ∈ ms
    · simp [hm]
    · simp only [hm, if_false]
      by_contra hne
      exact hm (hall name hname hne)
  · intro path hpath
    rw [hfiles]
    have hm : path ∉ ms := fun h => hpath (honly path h)
    simp [hm]

/-! ## File names -/

theorem split_at_first (c : Char) (l1 : List Char) : ∀ (l2 r1 r2 : List Char),
    c ∉ l1 → c ∉ l2 → l1 ++ c :: r1 = l2 ++ c :: r2 → l1 = l2 ∧ r1 = r2 := by
  induction l1 with
  | nil =>
    intro l2 r1 r2 _ h2 h
    cases l2 with
    | nil => simpa using h
    | cons b l2 =>
      simp only [List.nil_append, List.cons_append, List.cons.injEq] at h
      exact absurd (h.1 ▸ List.mem_cons_self _ _) h2
  | cons a l1 ih =>
    intro l2 r1 r2 h1 h2 h
    cases l2 with
    | nil =>
      simp only [List.nil_append, List.cons_append, List.cons.injEq] at h
      exact absurd (h.1 ▸ List.mem_cons_self _ _) h1
    | cons b l2 =>
      simp only [List.cons_append, List.cons.injEq] at h
      obtain ⟨hab, hrest⟩ := h
      have := ih l2 r1 r2 (fun hm => h1 (List.mem_cons_of_mem _ hm))
        (fun hm => h2 (List.mem_cons_of_mem _ hm)) hrest
      exact ⟨by rw [hab, this.1], this.2⟩

/-- C8 (as amended): for namespaces that contain no underscore, as Kubernetes
namespace names do, `filenameForPod` is injective on the pair (namespace, name). -/
theorem filenameForPod_injective_of_no_underscore (pod1 pod2 : Pod)
    (h1 : '_' ∉ pod1.Namespace.toList) (h2 : '_' ∉ pod2.Namespace.toList)
    (h : filenameForPod pod1 = filenameForPod pod2) :
    pod1.Namespace = pod2.Namespace ∧ pod1.Name = pod2.Name := by
  have hd := congrArg String.data h
  simp only [filenameForPod, String.data_append] at hd
  have hd2 := List.append_cancel_right hd
  rw [List.append_assoc, List.append_assoc] at hd2
  obtain ⟨hn, hm⟩ := split_at_first '_' _ _ _ _ h1 h2 hd2
  exact ⟨String.ext hn, String.ext hm⟩

theorem filenameForPod_injective_of_no_underscore_witness :
    ({ Namespace := "kube-system", Name := "etcd_0", Rest := "a" } : Pod).Namespace
        = ({ Namespace := "kube-system", Name := "etcd_0", Rest := "b" } : Pod).Namespace ∧
    ({ Namespace := "kube-system", Name := "etcd_0", Rest := "a" } : Pod).Name
        = ({ Namespace := "kube-system", Name := "etcd_0", Rest := "b" } : Pod).Name :=
  filenameForPod_injective_of_no_underscore
    { Namespace := "kube-system", Name := "etcd_0", Rest := "a" }
    { Namespace := "kube-system", Name := "etcd_0", Rest := "b" }
    (by decide) (by decide) (by decide)

/-- C8 (counterexample): the non-empty pairs (`a_b`, `c`) and (`a`, `b_c`) differ and
share the file name `a_b_c.meta`. -/
theorem filenameForPod_collision :
    ("a_b" ≠ "" ∧ "c" ≠ "" ∧ "a" ≠ "" ∧ "b_c" ≠ "") ∧
    filenameForPod { Namespace := "a_b", Name := "c", Rest := "" }
      = filenameForPod { Namespace := "a", Name := "b_c", Rest := "" } ∧
    filenameForPod { Namespace := "a_b", Name := "c", Rest := "" } = "a_b_c.meta" ∧
    ¬ (("a_b" : String) = "a" ∧ ("c" : String) = "b_c") := by
  decide

/-! ## The tracker -/

theorem watch.bookmark_ne_error : watch.Bookmark ≠ watch.Error := by decide

theorem watchHandler_recv (event : watch.Event) (taken : Bool) (rest : List Select) :
    watchHandler (Select.recv event taken :: rest) =
      if event.Typ = watch.Error then
        { sent := [], result := some (some (WatchError.fromObject event.Object)) }
      else if event.Typ = watch.Bookmark then watchHandler rest
      else
        match event.Object with
        | RuntimeObject.pod podMeta =>
          if taken then
            { sent := { Meta := podMeta, Typ := event.Typ } :: (watchHandler rest).sent
              result := (watchHandler rest).result }
          else { sent := [], result := none }
        | _ => watchHandler rest := by
  rw [watchHandler]

theorem forwardedEvents_cons (ev : watch.Event) (rest : List watch.Event) :
    forwardedEvents (ev :: rest) =
      if ev.Typ = watch.Error then []
      else if ev.Typ = watch.Bookmark then forwardedEvents rest
      else
        match ev.Object with
        | RuntimeObject.pod podMeta => { Meta := podMeta, Typ := ev.Typ } :: forwardedEvents rest
        | _ => forwardedEvents rest := by
  by_cases he : ev.Typ = watch.Error
  · simp [forwardedEvents, he]
  · by_cases hb : ev.Typ = watch.Bookmark
    · simp [forwardedEvents, List.takeWhile_cons, hb, watch.bookmark_ne_error]
    · cases ho : ev.Object <;> simp [forwardedEvents, List.takeWhile_cons, he, hb, ho]

theorem watchHandler_sent_eq (items : List watch.Event) (tail : List Select)
    (htail : (watchHandler tail).sent = []) :
    (watchHandler (items.map (fun ev => Select.recv ev true) ++ tail)).sent
      = forwardedEvents items := by
  induction items with
  | nil => simpa [forwardedEvents] using htail
  | cons ev rest ih =>
    rw [List.map_cons, List.cons_append, watchHandler_recv, forwardedEvents_cons]
    by_cases he : ev.Typ = watch.Error
    · simp [he]
    · by_cases hb : ev.Typ = watch.Bookmark
      · simp [hb, ih, watch.bookmark_ne_error]
      · cases ho : ev.Object <;> simp [he, hb, ih]

theorem forwardedEvents_sound (items : List watch.Event) :
    ∀ e ∈ forwardedEvents items, e.Typ ≠ watch.Bookmark ∧ e.Typ ≠ watch.Error ∧
      ∃ ev ∈ items, ev.Typ = e.Typ ∧ ev.Object = RuntimeObject.pod e.Meta := by
  induction items with
  | nil => intro e he; simp [forwardedEvents] at he
  | cons ev rest ih =>
    intro e hmem
    rw [forwardedEvents_cons] at hmem
    by_cases he : ev.Typ = watch.Error
    · simp [he] at hmem
    · by_cases hb : ev.Typ = watch.Bookmark
      · simp only [he, hb, if_false, if_true] at hmem
        obtain ⟨h1, h2, ev2, hev2, h3⟩ := ih e hmem
        exact ⟨h1, h2, ev2, List.mem_cons_of_mem _ hev2, h3⟩
      · simp only [he, hb, if_false] at hmem
        cases ho : ev.Object with
        | pod p =>
          simp only [ho, List.mem_cons] at hmem
          rcases hmem with rfl | hmem
          · exact ⟨hb, he, ev, List.mem_cons_self _ _, rfl, ho⟩
          · obtain ⟨h1, h2, ev2, hev2, h3⟩ := ih e hmem
            exact ⟨h1, h2, ev2, List.mem_cons_of_mem _ hev2, h3⟩
        | other k =>
          simp only [ho] at hmem
          obtain ⟨h1, h2, ev2, hev2, h3⟩ := ih e hmem
          exact ⟨h1, h2, ev2, List.mem_cons_of_mem _ hev2, h3⟩
        | nil =>
          simp only [ho] at hmem
          obtain ⟨h1, h2, ev2, hev2, h3⟩ := ih e hmem
          exact ⟨h1, h2, ev2, List.mem_cons_of_mem _ hev2, h3⟩

/-- C9: with no cancellation and a consumer that takes every event, the events
`watchHandler` sends are, in order, the items before the first `ERROR` item that are no
`BOOKMARK` and carry a `*v1.Pod`, each with its type and pod unchanged; this holds
whether the result channel stays open or is closed after the items. No bookmark and no
item carrying another object is forwarded. -/
theorem watchHandler_forwards_exactly (items : List watch.Event) :
    (watchHandler (items.map (fun ev => Select.recv ev true))).sent = forwardedEvents items ∧
    (watchHandler (items.map (fun ev => Select.recv ev true) ++ [Select.closed])).sent
      = forwardedEvents items ∧
    (∀ e ∈ (watchHandler (items.map (fun ev => Select.recv ev true))).sent,
      e.Typ ≠ watch.Bookmark ∧ e.Typ ≠ watch.Error ∧
      ∃ ev ∈ items, ev.Typ = e.Typ ∧ ev.Object = RuntimeObject.pod e.Meta) := by
  have h1 : (watchHandler (items.map (fun ev => Select.recv ev true))).sent
      = forwardedEvents items := by
    have := watchHandler_sent_eq items [] (by simp [watchHandler])
    simpa using this
  refine ⟨h1, watchHandler_sent_eq items [Select.closed] (by simp [watchHandler]), ?_⟩
  rw [h1]
  exact forwardedEvents_sound items

/-- The loop of the worker neither closes the channel nor clears the flag. -/
theorem watcherWorker_loop_quiet (expiredOrGone : RuntimeObject → Bool) (script : List Attempt) :
    Effect.closeEvents ∉ (watcherWorker.loop expiredOrGone script).1 ∧
    Effect.clearRunning ∉ (watcherWorker.loop expiredOrGone script).1 := by
  induction script with
  | nil => simp [watcherWorker.loop]
  | cons a rest ih =>
    cases a with
    | ctxDone => simp [watcherWorker.loop]
    | openFailed refused =>
      cases refused
      · simp [watcherWorker.loop]
      · simpa [watcherWorker.loop] using ih
    | watching sc =>
      rw [watcherWorker.loop]
      split
      · simp
      · simpa using ih
      · split
        · simpa using ih
        · simp
      · simp

theorem Session.run_append (s : Session) (a b : List Effect) :
    Session.run s (a ++ b) = Session.run (Session.run s a) b := by
  simp [Session.run, List.foldl_append]

theorem Session.run_running (steps : List Effect) (h : Effect.clearRunning ∉ steps) :
    ∀ s : Session, (Session.run s steps).tracker.running = s.tracker.running := by
  induction steps with
  | nil => intro s; rfl
  | cons e rest ih =>
    intro s
    have hrest : Effect.clearRunning ∉ rest := fun hm => h (List.mem_cons_of_mem _ hm)
    have he : e ≠ Effect.clearRunning := fun hm => h (hm ▸ List.mem_cons_self _ _)
    show (Session.run (s.step e) rest).tracker.running = s.tracker.running
    rw [ih hrest]
    cases e <;> first | rfl | exact absurd rfl he

theorem Session.run_closed (steps : List Effect) (h : Effect.closeEvents ∉ steps) :
    ∀ s : Session, (Session.run s steps).closed = s.closed := by
  induction steps with
  | nil => intro s; rfl
  | cons e rest ih =>
    intro s
    have hrest : Effect.closeEvents ∉ rest := fun hm => h (List.mem_cons_of_mem _ hm)
    have he : e ≠ Effect.closeEvents := fun hm => h (hm ▸ List.mem_cons_self _ _)
    show (Session.run (s.step e) rest).closed = s.closed
    rw [ih hrest]
    cases e <;> first | rfl | exact absurd rfl he

/-- C10: `TrackPods` returns an error, with no channel, no worker and the tracker
unchanged, exactly when `running` is set; otherwise it sets `running`, returns the new
channel and starts the worker, so that a second call fails. The worker clears the flag
only as its very last step, right after closing the event channel, and only when it
returns; until then the flag stays set and the channel open. After a worker that
returned, the channel is closed, the flag is clear and `TrackPods` succeeds again. -/
theorem TrackPods_single_session (t : PodTracker) (fresh next : Nat) (node : String)
    (expiredOrGone : RuntimeObject → Bool) (script : List Attempt) (s : Session) :
    ((TrackPods t fresh node).err ≠ none ↔ t.running = true) ∧
    (t.running = true → TrackPods t fresh node =
      { tracker := t, events := none, err := some "already tracking", worker := none }) ∧
    (t.running = false →
      (TrackPods t fresh node).tracker.running = true ∧
      (TrackPods t fresh node).events = some fresh ∧
      (TrackPods t fresh node).err = none ∧
      (TrackPods t fresh node).worker = some (fresh, "spec.nodeName=" ++ node) ∧
      (TrackPods (TrackPods t fresh node).tracker next node).err = some "already tracking") ∧
    ((watcherWorker expiredOrGone script).2 = WorkerEnd.returned →
      ∃ body, (watcherWorker expiredOrGone script).1
          = body ++ [Effect.closeEvents, Effect.clearRunning] ∧
        Effect.closeEvents ∉ body ∧ Effect.clearRunning ∉ body ∧
        (Session.run s body).tracker.running = s.tracker.running ∧
        (Session.run s body).closed = s.closed ∧
        (Session.run s (watcherWorker expiredOrGone script).1).closed = true ∧
        (Session.run s (watcherWorker expiredOrGone script).1).tracker.running = false ∧
        (TrackPods (Session.run s (watcherWorker expiredOrGone script).1).tracker next node).err
          = none) ∧
    ((watcherWorker expiredOrGone script).2 ≠ WorkerEnd.returned →
      Effect.clearRunning ∉ (watcherWorker expiredOrGone script).1 ∧
      Effect.closeEvents ∉ (watcherWorker expiredOrGone script).1 ∧
      (Session.run s (watcherWorker expiredOrGone script).1).tracker.running
        = s.tracker.running) := by
  obtain ⟨hq1, hq2⟩ := watcherWorker_loop_quiet expiredOrGone script
  refine ⟨?_, ?_, ?_, ?_, ?_⟩
  · cases h : t.running <;> simp [TrackPods, h]
  · intro h; simp [TrackPods, h]
  · intro h; simp [TrackPods, h, nodeSelectorTemplate]
  · intro hend
    have hloop : (watcherWorker.loop expiredOrGone script).2 = WorkerEnd.returned := by
      unfold watcherWorker at hend
      split at hend <;> first | assumption | cases hend
    have htr : (watcherWorker expiredOrGone script).1 =
        (watcherWorker.loop expiredOrGone script).1
          ++ [Effect.closeEvents, Effect.clearRunning] := by
      unfold watcherWorker
      rw [hloop]
    refine ⟨_, htr, hq1, hq2, Session.run_running _ hq2 s, Session.run_closed _ hq1 s, ?_, ?_, ?_⟩
    · rw [htr, Session.run_append]; rfl
    · rw [htr, Session.run_append]; rfl
    · have hr : (Session.run s (watcherWorker expiredOrGone script).1).tracker.running = false := by
        rw [htr, Session.run_append]; rfl
      simp [TrackPods, hr]
  · intro hend
    have htr : (watcherWorker expiredOrGone script).1 =
        (watcherWorker.loop expiredOrGone script).1 := by
      unfold watcherWorker at hend ⊢
      split at hend <;> first | exact absurd rfl hend | simp [*]
    rw [htr]
    exact ⟨hq2, hq1, Session.run_running _ hq2 s⟩

/-! ## Effect of one call on the files and on the queue -/

theorem createOrUpdateFile_files_ne (L : StdLib) (F : Faults) (w : PodMetaWriter) (wd : World)
    (m : Option Pod) (p : String) (h : ∀ pod, m = some pod → w.fullname L pod ≠ p) :
    (createOrUpdateFile L F w wd m).1.files p = wd.files p := by
  cases m with
  | none => rfl
  | some pod =>
    have hp : p ≠ w.fullname L pod := fun e => h pod rfl e.symm
    cases hc : F.createErr (w.fullname L pod) with
    | some e => simp [createOrUpdateFile, osCreate, hc]
    | none =>
      cases he : F.encodeErr (w.fullname L pod) pod with
      | some e => simp [createOrUpdateFile, osCreate, jsonEncode, hc, he, setFile_files, hp]
      | none => simp [createOrUpdateFile, osCreate, jsonEncode, hc, he, setFile_files, hp]

theorem createOrUpdateFile_files_isSome (L : StdLib) (F : Faults) (w : PodMetaWriter)
    (wd : World) (m : Option Pod) (p : String) (h : wd.files p ≠ none) :
    (createOrUpdateFile L F w wd m).1.files p ≠ none := by
  cases m with
  | none => exact h
  | some pod =>
    cases hc : F.createErr (w.fullname L pod) with
    | some e => simpa [createOrUpdateFile, osCreate, hc] using h
    | none =>
      by_cases hp : p = w.fullname L pod
      · cases he : F.encodeErr (w.fullname L pod) pod with
        | some e => simp [createOrUpdateFile, osCreate, jsonEncode, hc, he, setFile_files, hp]
        | none => simp [createOrUpdateFile, osCreate, jsonEncode, hc, he, setFile_files, hp]
      · cases he : F.encodeErr (w.fullname L pod) pod with
        | some e =>
          simpa [createOrUpdateFile, osCreate, jsonEncode, hc, he, setFile_files, hp] using h
        | none =>
          simpa [createOrUpdateFile, osCreate, jsonEncode, hc, he, setFile_files, hp] using h

theorem createOrUpdateFile_files_self (L : StdLib) (F : Faults) (w : PodMetaWriter)
    (wd : World) (pod : Pod) (hc : F.createErr (w.fullname L pod) = none)
    (he : F.encodeErr (w.fullname L pod) pod = none) :
    (createOrUpdateFile L F w wd (some pod)).1.files (w.fullname L pod) = some (L.Encode pod) := by
  simp [createOrUpdateFile, osCreate, jsonEncode, hc, he, setFile_files]

theorem Handle_directory (L : StdLib) (F : Faults) (sweepNow scheduleNow : Int)
    (w : PodMetaWriter) (wd : World) (event : PodEvent) :
    (Handle L F sweepNow scheduleNow w wd event).1.directory = w.directory ∧
    (Handle L F sweepNow scheduleNow w wd event).1.retention = w.retention := by
  by_cases ha : event.Typ = watch.Added
  · rw [Handle_added L F sweepNow scheduleNow w wd event ha]; exact ⟨rfl, rfl⟩
  · by_cases hd : event.Typ = watch.Deleted
    · rw [Handle_deleted L F sweepNow scheduleNow w wd event hd]
      cases event.Meta <;> exact ⟨rfl, rfl⟩
    · rw [Handle_other L F sweepNow scheduleNow w wd event ha hd]; exact ⟨rfl, rfl⟩

/-- The queue after `Handle`: the old queue without its due front, plus the ticket of
a `Deleted` event that carries a pod. -/
theorem Handle_queue (L : StdLib) (F : Faults) (sweepNow scheduleNow : Int)
    (w : PodMetaWriter) (wd : World) (event : PodEvent) :
    (Handle L F sweepNow scheduleNow w wd event).1.filesToDelete =
      w.filesToDelete.dropWhile (fun t => decide (t.deleteAt ≤ sweepNow)) ++
        (if event.Typ = watch.Deleted then
          match event.Meta with
          | some pod => [{ fullname := w.fullname L pod, deleteAt := scheduleNow + w.retention }]
          | none => []
         else []) := by
  have hq := deleteOldFiles_queue F sweepNow w wd
  by_cases ha : event.Typ = watch.Added
  · have hd : event.Typ ≠ watch.Deleted := fun h => watch.deleted_ne_added (h.symm.trans ha)
    rw [Handle_added L F sweepNow scheduleNow w wd event ha]
    simp [hd, hq]
  · by_cases hd : event.Typ = watch.Deleted
    · rw [Handle_deleted L F sweepNow scheduleNow w wd event hd]
      cases hm : event.Meta with
      | none => simp [hd, scheduleForDeletion, hq]
      | some pod =>
        simp only [scheduleForDeletion, hq, hd, if_true]
        rfl
    · rw [Handle_other L F sweepNow scheduleNow w wd event ha hd]
      simp [hd, hq]

/-- Unless the event is an `Added` for the path, `Handle` leaves at the path what the
sweep leaves there. -/
theorem Handle_files_not_added (L : StdLib) (F : Faults) (sweepNow scheduleNow : Int)
    (w : PodMetaWriter) (wd : World) (event : PodEvent) (p : String)
    (h : ¬ (event.Typ = watch.Added ∧ event.snapshotPath L w.directory = some p)) :
    (Handle L F sweepNow scheduleNow w wd event).2.1.files p =
      (deleteOldFiles F sweepNow w wd).2.files p := by
  by_cases ha : event.Typ = watch.Added
  · rw [Handle_added L F sweepNow scheduleNow w wd event ha]
    apply createOrUpdateFile_files_ne
    intro pod hm hp
    apply h
    refine ⟨ha, ?_⟩
    simp only [PodEvent.snapshotPath, hm, Option.map_some']
    exact congrArg some hp
  · by_cases hd : event.Typ = watch.Deleted
    · rw [Handle_deleted L F sweepNow scheduleNow w wd event hd]
      cases event.Meta <;> rfl
    · rw [Handle_other L F sweepNow scheduleNow w wd event ha hd]

theorem Handle_files_isSome (L : StdLib) (F : Faults) (sweepNow scheduleNow : Int)
    (w : PodMetaWriter) (wd : World) (event : PodEvent) (p : String)
    (h : (deleteOldFiles F sweepNow w wd).2.files p ≠ none) :
    (Handle L F sweepNow scheduleNow w wd event).2.1.files p ≠ none := by
  by_cases ha : event.Typ = watch.Added
  · rw [Handle_added L F sweepNow scheduleNow w wd event ha]
    exact createOrUpdateFile_files_isSome L F _ _ _ p h
  · rw [Handle_files_not_added L F sweepNow scheduleNow w wd event p (fun hh => ha hh.1)]
    exact h

theorem handleAll_append (L : StdLib) (s : PodMetaWriter × World) (a b : List Call) :
    handleAll L s (a ++ b) = handleAll L (handleAll L s a) b := by
  simp [handleAll, List.foldl_append]

theorem handleAll_cons (L : StdLib) (s : PodMetaWriter × World) (c : Call) (cs : List Call) :
    handleAll L s (c :: cs) = handleAll L (handleCall L s c) cs := rfl

theorem clockFrom_append (a : List Call) : ∀ (T : Int) (b : List Call),
    clockFrom T (a ++ b) ↔ clockFrom T a ∧ clockFrom (lastClock T a) b := by
  induction a with
  | nil => intro T b; simp [clockFrom, lastClock]
  | cons c cs ih =>
    intro T b
    have hl : lastClock T (c :: cs) = lastClock c.scheduleNow cs := rfl
    have hc : clockFrom T (c :: (cs ++ b)) ↔
        T ≤ c.sweepNow ∧ c.sweepNow ≤ c.scheduleNow ∧ clockFrom c.scheduleNow (cs ++ b) :=
      Iff.rfl
    have hc2 : clockFrom T (c :: cs) ↔
        T ≤ c.sweepNow ∧ c.sweepNow ≤ c.scheduleNow ∧ clockFrom c.scheduleNow cs := Iff.rfl
    rw [List.cons_append, hc, hc2, hl, ih]
    tauto

theorem mem_takeWhile_due (q : List fileToDelete) (now : Int) (tk : fileToDelete)
    (h : tk ∈ q.takeWhile (fun t => decide (t.deleteAt ≤ now))) : tk ∈ q ∧ tk.deleteAt ≤ now :=
  ⟨(List.takeWhile_prefix _).subset h, by simpa using List.mem_takeWhile_imp h⟩

theorem mem_dropWhile_due (q : List fileToDelete) (now : Int) (tk : fileToDelete)
    (h : tk ∈ q.dropWhile (fun t => decide (t.deleteAt ≤ now))) : tk ∈ q :=
  (List.dropWhile_suffix _).subset h

/-- While every ticket for a path is due at `bound` or later, a call whose sweep runs
before `bound` and which schedules no earlier than `bound - retention` keeps the file. -/
theorem handleCall_keeps_pending (L : StdLib) (f : String) (bound : Int)
    (s : PodMetaWriter × World) (c : Call)
    (hfile : s.2.files f ≠ none)
    (hq : ∀ tk ∈ s.1.filesToDelete, tk.fullname = f → bound ≤ tk.deleteAt)
    (hsched : bound ≤ c.scheduleNow + s.1.retention) (hsweep : c.sweepNow < bound) :
    (handleCall L s c).2.files f ≠ none ∧
    (∀ tk ∈ (handleCall L s c).1.filesToDelete, tk.fullname = f → bound ≤ tk.deleteAt) ∧
    (handleCall L s c).1.retention = s.1.retention ∧
    (handleCall L s c).1.directory = s.1.directory := by
  obtain ⟨hdir, hret⟩ := Handle_directory L c.faults c.sweepNow c.scheduleNow s.1 s.2 c.event
  refine ⟨?_, ?_, hret, hdir⟩
  · apply Handle_files_isSome
    rw [deleteOldFiles_files_other]
    · exact hfile
    · intro tk htk hname
      obtain ⟨hmem, hdue⟩ := mem_takeWhile_due _ _ _ htk
      have := hq tk hmem hname
      omega
  · intro tk htk hname
    simp only [handleCall, Handle_queue, List.mem_append] at htk
    rcases htk with htk | htk
    · exact hq tk (mem_dropWhile_due _ _ _ htk) hname
    · split at htk
      · split at htk
        · simp only [List.mem_singleton] at htk
          subst htk
          exact hsched
        · simp at htk
      · simp at htk

theorem handleAll_keeps_pending (L : StdLib) (f : String) (bound r : Int) (post : List Call) :
    ∀ (s : PodMetaWriter × World), s.1.retention = r → s.2.files f ≠ none →
      (∀ tk ∈ s.1.filesToDelete, tk.fullname = f → bound ≤ tk.deleteAt) →
      (∀ c ∈ post, bound ≤ c.scheduleNow + r ∧ c.sweepNow < bound) →
      (handleAll L s post).2.files f ≠ none := by
  induction post with
  | nil => intro s _ hfile _ _; exact hfile
  | cons c cs ih =>
    intro s hr hfile hq hpost
    obtain ⟨h1, h2⟩ := hpost c (List.mem_cons_self _ _)
    obtain ⟨g1, g2, g3, _⟩ := handleCall_keeps_pending L f bound s c hfile hq (hr ▸ h1) h2
    rw [handleAll_cons]
    exact ih _ (g3.trans hr) g1 g2 (fun c' hc' => hpost c' (List.mem_cons_of_mem _ hc'))

/-- C3 (as amended): when the snapshot file of a pod exists and no ticket for it is
queued, `Handle` of a `Deleted` event for the pod, scheduling at clock `t`, returns nil
and leaves the file with its content; and the file is present after every later call,
as long as those calls sweep before `t + retention` and read clocks not before `t`. -/
theorem Handle_deleted_defers_removal (L : StdLib) (F : Faults) (sweepNow t : Int)
    (w : PodMetaWriter) (wd : World) (pod : Pod) (content : String) (post : List Call)
    (hfile : wd.files (w.fullname L pod) = some content)
    (hnone : ∀ tk ∈ w.filesToDelete, tk.fullname ≠ w.fullname L pod)
    (hpost : ∀ c ∈ post, t ≤ c.scheduleNow ∧ c.sweepNow < t + w.retention) :
    (Handle L F sweepNow t w wd { Meta := some pod, Typ := watch.Deleted }).2.2
      = Outcome.returned none ∧
    (Handle L F sweepNow t w wd { Meta := some pod, Typ := watch.Deleted }).2.1.files
      (w.fullname L pod) = some content ∧
    ∀ k, (handleAll L
        (handleCall L (w, wd)
          { faults := F, sweepNow := sweepNow, scheduleNow := t,
            event := { Meta := some pod, Typ := watch.Deleted } })
        (post.take k)).2.files (w.fullname L pod) ≠ none := by
  have hsw : (deleteOldFiles F sweepNow w wd).2.files (w.fullname L pod) = some content := by
    rw [deleteOldFiles_files_other]
    · exact hfile
    · intro tk htk
      exact hnone tk (mem_takeWhile_due _ _ _ htk).1
  have hfiles : (Handle L F sweepNow t w wd { Meta := some pod, Typ := watch.Deleted }).2.1.files
      (w.fullname L pod) = some content := by
    rw [Handle_files_not_added]
    · exact hsw
    · intro hh
      exact watch.deleted_ne_added hh.1
  refine ⟨?_, hfiles, ?_⟩
  · rw [Handle_deleted L F sweepNow t w wd _ rfl]
    rfl
  · intro k
    apply handleAll_keeps_pending L (w.fullname L pod) (t + w.retention) w.retention
    · exact (Handle_directory L F sweepNow t w wd _).2
    · show (Handle L F sweepNow t w wd { Meta := some pod, Typ := watch.Deleted }).2.1.files
        (w.fullname L pod) ≠ none
      rw [hfiles]; simp
    · intro tk htk hname
      simp only [handleCall, Handle_queue, List.mem_append] at htk
      rcases htk with htk | htk
      · exact absurd hname (hnone tk (mem_dropWhile_due _ _ _ htk))
      · simp only [if_true, List.mem_singleton] at htk
        subst htk
        exact le_refl _
    · intro c hc
      obtain ⟨h1, h2⟩ := hpost c (List.mem_of_mem_take hc)
      exact ⟨by omega, h2⟩

/-! ## The queue stays ordered under a clock that never goes back -/

theorem sorted_dropWhile_future (now : Int) (q : List fileToDelete)
    (hs : q.Pairwise (fun a b => a.deleteAt ≤ b.deleteAt)) :
    ∀ tk ∈ q.dropWhile (fun t => decide (t.deleteAt ≤ now)), now < tk.deleteAt := by
  induction q with
  | nil => intro tk h; simp at h
  | cons x xs ih =>
    intro tk h
    rw [List.pairwise_cons] at hs
    by_cases hx : x.deleteAt ≤ now
    · have e : (x :: xs).dropWhile (fun t => decide (t.deleteAt ≤ now))
          = xs.dropWhile (fun t => decide (t.deleteAt ≤ now)) := by
        simp [List.dropWhile_cons, hx]
      rw [e] at h
      exact ih hs.2 tk h
    · have e : (x :: xs).dropWhile (fun t => decide (t.deleteAt ≤ now)) = x :: xs := by
        simp [List.dropWhile_cons, hx]
      rw [e, List.mem_cons] at h
      rcases h with h | h
      · rw [h]; omega
      · have := hs.1 tk h
        omega

theorem sorted_mem_takeWhile (now : Int) (q : List fileToDelete)
    (hs : q.Pairwise (fun a b => a.deleteAt ≤ b.deleteAt)) (tk : fileToDelete)
    (hmem : tk ∈ q) (hdue : tk.deleteAt ≤ now) :
    tk ∈ q.takeWhile (fun t => decide (t.deleteAt ≤ now)) := by
  induction q with
  | nil => simp at hmem
  | cons x xs ih =>
    rw [List.pairwise_cons] at hs
    rw [List.mem_cons] at hmem
    rcases hmem with rfl | hmem
    · simp [List.takeWhile_cons, hdue]
    · have hx : x.deleteAt ≤ now := le_trans (hs.1 tk hmem) hdue
      have e : (x :: xs).takeWhile (fun t => decide (t.deleteAt ≤ now))
          = x :: xs.takeWhile (fun t => decide (t.deleteAt ≤ now)) := by
        simp [List.takeWhile_cons, hx]
      rw [e]
      exact List.mem_cons_of_mem _ (ih hs.2 hmem)

theorem mem_dropWhile_of_future (now : Int) (q : List fileToDelete) (tk : fileToDelete)
    (hmem : tk ∈ q) (hfut : now < tk.deleteAt) :
    tk ∈ q.dropWhile (fun t => decide (t.deleteAt ≤ now)) := by
  have h := List.takeWhile_append_dropWhile (fun t : fileToDelete => decide (t.deleteAt ≤ now)) q
  rw [← h, List.mem_append] at hmem
  rcases hmem with h1 | h1
  · have := (mem_takeWhile_due q now tk h1).2
    omega
  · exact h1

theorem QueueOrdered_fresh (L : StdLib) (F : Faults) (directory : String) (r : Int)
    (wd : World) (T : Int) : QueueOrdered r directory T (NewPodMetaWriter L F directory r wd) := by
  refine ⟨rfl, rfl, ?_, ?_⟩
  · exact List.Pairwise.nil
  · intro tk h
    simp [NewPodMetaWriter] at h

theorem QueueOrdered_handleCall (L : StdLib) (r : Int) (directory : String) (T : Int)
    (s : PodMetaWriter × World) (c : Call) (h : QueueOrdered r directory T s)
    (h1 : T ≤ c.sweepNow) (h2 : c.sweepNow ≤ c.scheduleNow) :
    QueueOrdered r directory c.scheduleNow (handleCall L s c) := by
  obtain ⟨hr, hd, hs, hb⟩ := h
  obtain ⟨hdir, hret⟩ := Handle_directory L c.faults c.sweepNow c.scheduleNow s.1 s.2 c.event
  have hnew : ∀ b ∈ (if c.event.Typ = watch.Deleted then
        match c.event.Meta with
        | some pod =>
          [({ fullname := s.1.fullname L pod, deleteAt := c.scheduleNow + s.1.retention } :
            fileToDelete)]
        | none => []
      else []), b.deleteAt = c.scheduleNow + r := by
    intro b hb
    split at hb
    · split at hb
      · simp only [List.mem_singleton] at hb
        rw [hb, ← hr]
      · simp at hb
    · simp at hb
  refine ⟨hret.trans hr, hdir.trans hd, ?_, ?_⟩
  · simp only [handleCall, Handle_queue]
    rw [List.pairwise_append]
    refine ⟨hs.sublist (List.dropWhile_sublist _), ?_, ?_⟩
    · split
      · split
        · exact List.pairwise_singleton _ _
        · exact List.Pairwise.nil
      · exact List.Pairwise.nil
    · intro a ha b hb2
      have := hb a (mem_dropWhile_due _ _ _ ha)
      rw [hnew b hb2]
      omega
  · intro tk htk
    simp only [handleCall, Handle_queue, List.mem_append] at htk
    rcases htk with htk | htk
    · have := hb tk (mem_dropWhile_due _ _ _ htk)
      omega
    · rw [hnew tk htk]

theorem QueueOrdered_handleAll (L : StdLib) (r : Int) (directory : String) (calls : List Call) :
    ∀ (T : Int) (s : PodMetaWriter × World), QueueOrdered r directory T s → clockFrom T calls →
      QueueOrdered r directory (lastClock T calls) (handleAll L s calls) := by
  induction calls with
  | nil => intro T s h _; exact h
  | cons c cs ih =>
    intro T s h hc
    obtain ⟨h1, h2, h3⟩ := hc
    exact ih c.scheduleNow _ (QueueOrdered_handleCall L r directory T s c h h1 h2) h3

/-- A ticket appended by a call names the snapshot path of its `Deleted` event. -/
theorem handleCall_queue_mem (L : StdLib) (s : PodMetaWriter × World) (c : Call)
    (tk : fileToDelete) (h : tk ∈ (handleCall L s c).1.filesToDelete) :
    tk ∈ s.1.filesToDelete.dropWhile (fun t => decide (t.deleteAt ≤ c.sweepNow)) ∨
    (c.event.Typ = watch.Deleted ∧
      c.event.snapshotPath L s.1.directory = some tk.fullname ∧
      tk.deleteAt = c.scheduleNow + s.1.retention) := by
  simp only [handleCall, Handle_queue, List.mem_append] at h
  rcases h with h | h
  · exact Or.inl h
  · right
    split at h
    · rename_i hd
      cases hm : c.event.Meta with
      | none => simp [hm] at h
      | some pod =>
        simp only [hm, List.mem_singleton] at h
        subst h
        exact ⟨hd, by simp [PodEvent.snapshotPath, hm, PodMetaWriter.fullname], rfl⟩
    · simp at h

/-! ## A snapshot written after the tickets for its path are gone -/

/-- Tickets for the path `f` that calls of `pre` append are due by `A` when every
`Deleted` event for `f` in `pre` was scheduled at least the retention before `A`. -/
theorem handleAll_tickets_due (L : StdLib) (r : Int) (directory f : String) (A : Int)
    (pre : List Call) : ∀ (s : PodMetaWriter × World),
      s.1.retention = r → s.1.directory = directory →
      (∀ tk ∈ s.1.filesToDelete, tk.fullname = f → tk.deleteAt ≤ A) →
      (∀ c ∈ pre, c.event.Typ = watch.Deleted → c.event.snapshotPath L directory = some f →
        c.scheduleNow + r ≤ A) →
      ∀ tk ∈ (handleAll L s pre).1.filesToDelete, tk.fullname = f → tk.deleteAt ≤ A := by
  induction pre with
  | nil => intro s _ _ h _; exact h
  | cons c cs ih =>
    intro s hr hd hq hpre
    obtain ⟨hdir, hret⟩ := Handle_directory L c.faults c.sweepNow c.scheduleNow s.1 s.2 c.event
    rw [handleAll_cons]
    apply ih _ (hret.trans hr) (hdir.trans hd)
    · intro tk htk hname
      rcases handleCall_queue_mem L s c tk htk with h | ⟨h1, h2, h3⟩
      · exact hq tk (mem_dropWhile_due _ _ _ h) hname
      · rw [hd, hname] at h2
        rw [h3, hr]
        exact hpre c (List.mem_cons_self _ _) h1 h2
    · intro c' hc'
      exact hpre c' (List.mem_cons_of_mem _ hc')

/-- Once no ticket for `f` is queued, calls that are neither `Added` nor `Deleted`
events for `f` leave the file as it is. -/
theorem handleAll_untouched (L : StdLib) (directory f : String) (post : List Call) :
    ∀ (s : PodMetaWriter × World), s.1.directory = directory →
      (∀ tk ∈ s.1.filesToDelete, tk.fullname ≠ f) →
      (∀ c ∈ post, c.event.snapshotPath L directory = some f →
        c.event.Typ ≠ watch.Added ∧ c.event.Typ ≠ watch.Deleted) →
      (handleAll L s post).2.files f = s.2.files f := by
  induction post with
  | nil => intro s _ _ _; rfl
  | cons c cs ih =>
    intro s hd hq hpost
    obtain ⟨hdir, _⟩ := Handle_directory L c.faults c.sweepNow c.scheduleNow s.1 s.2 c.event
    have hc := hpost c (List.mem_cons_self _ _)
    rw [handleAll_cons, ih _ (hdir.trans hd)]
    · show (Handle L c.faults c.sweepNow c.scheduleNow s.1 s.2 c.event).2.1.files f = s.2.files f
      rw [Handle_files_not_added, deleteOldFiles_files_other]
      · intro tk htk
        exact hq tk (mem_takeWhile_due _ _ _ htk).1
      · intro hh
        rw [hd] at hh
        exact (hc hh.2).1 hh.1
    · intro tk htk hname
      rcases handleCall_queue_mem L s c tk htk with h | ⟨h1, h2, _⟩
      · exact hq tk (mem_dropWhile_due _ _ _ h) hname
      · rw [hd, hname] at h2
        exact (hc h2).2 h1
    · intro c' hc'
      exact hpost c' (List.mem_cons_of_mem _ hc')

/-- C2 (as amended): on a freshly constructed writer, under a clock that never goes
back, let the last `Added` or `Deleted` event for a snapshot path be an `Added` event
with pod `p` whose file is created and written without failure. If every earlier
`Deleted` event for that path was scheduled at least the retention before that `Added`
call sweeps, then after the whole sequence the file holds the serialization of `p`. -/
theorem last_added_snapshot_survives (L : StdLib) (F0 : Faults) (directory : String)
    (r : Int) (wd0 : World) (T0 : Int) (pre post : List Call) (a : Call) (pod : Pod)
    (hclock : clockFrom T0 (pre ++ [a]))
    (ha : a.event = { Meta := some pod, Typ := watch.Added })
    (hcreate : a.faults.createErr (L.Join directory (filenameForPod pod)) = none)
    (hwrite : a.faults.encodeErr (L.Join directory (filenameForPod pod)) pod = none)
    (hpre : ∀ c ∈ pre, c.event.Typ = watch.Deleted →
      c.event.snapshotPath L directory = some (L.Join directory (filenameForPod pod)) →
      c.scheduleNow + r ≤ a.sweepNow)
    (hpost : ∀ c ∈ post,
      c.event.snapshotPath L directory = some (L.Join directory (filenameForPod pod)) →
      c.event.Typ ≠ watch.Added ∧ c.event.Typ ≠ watch.Deleted) :
    (handleAll L (NewPodMetaWriter L F0 directory r wd0) (pre ++ a :: post)).2.files
      (L.Join directory (filenameForPod pod)) = some (L.Encode pod) := by
  obtain ⟨hc1, hc2⟩ := (clockFrom_append pre T0 [a]).mp hclock
  have hord := QueueOrdered_handleAll L r directory pre T0 _
    (QueueOrdered_fresh L F0 directory r wd0 T0) hc1
  have hdue := handleAll_tickets_due L r directory (L.Join directory (filenameForPod pod))
    a.sweepNow pre (NewPodMetaWriter L F0 directory r wd0) rfl rfl
    (by intro tk h; simp [NewPodMetaWriter] at h) hpre
  rw [handleAll_append, handleAll_cons]
  generalize handleAll L (NewPodMetaWriter L F0 directory r wd0) pre = s1 at hord hdue ⊢
  obtain ⟨_, hd1, hs1, _⟩ := hord
  obtain ⟨hdir, _⟩ := Handle_directory L a.faults a.sweepNow a.scheduleNow s1.1 s1.2 a.event
  have hfn : (deleteOldFiles a.faults a.sweepNow s1.1 s1.2).1.fullname L pod
      = L.Join directory (filenameForPod pod) := by
    show L.Join s1.1.directory (filenameForPod pod) = _
    rw [hd1]
  have hfile : (handleCall L s1 a).2.files (L.Join directory (filenameForPod pod))
      = some (L.Encode pod) := by
    show (Handle L a.faults a.sweepNow a.scheduleNow s1.1 s1.2 a.event).2.1.files _ = _
    rw [Handle_added L a.faults a.sweepNow a.scheduleNow s1.1 s1.2 a.event (by rw [ha]), ha]
    rw [← hfn] at hcreate hwrite ⊢
    exact createOrUpdateFile_files_self L a.faults _ _ pod hcreate hwrite
  have hq : ∀ tk ∈ (handleCall L s1 a).1.filesToDelete,
      tk.fullname ≠ L.Join directory (filenameForPod pod) := by
    intro tk htk hname
    rcases handleCall_queue_mem L s1 a tk htk with h | ⟨h1, _, _⟩
    · have h1 := sorted_dropWhile_future a.sweepNow _ hs1 tk h
      have h2 := hdue tk (mem_dropWhile_due _ _ _ h) hname
      omega
    · rw [ha] at h1
      exact watch.deleted_ne_added h1.symm
  rw [handleAll_untouched L directory _ post _ (hdir.trans hd1) hq hpost]
  exact hfile

/-! ## A deleted pod's file is gone once the retention has passed -/

/-- One call after a `Deleted` event for `f` was scheduled at `t`: either the ticket is
still queued in an ordered queue, or the file is absent and the clock is past
`t + r`. A call that sweeps at `t + r` or later leaves the file absent. -/
theorem handleCall_removes_due (L : StdLib) (r : Int) (directory f : String) (t T : Int)
    (s : PodMetaWriter × World) (c : Call)
    (hP : (QueueOrdered r directory T s ∧
        ({ fullname := f, deleteAt := t + r } : fileToDelete) ∈ s.1.filesToDelete) ∨
      (s.1.directory = directory ∧ s.2.files f = none ∧ t + r ≤ T))
    (h1 : T ≤ c.sweepNow) (h2 : c.sweepNow ≤ c.scheduleNow)
    (hremove : ∀ i, c.faults.removeErr i f = none)
    (hadd : t + r ≤ c.sweepNow →
      ¬ (c.event.Typ = watch.Added ∧ c.event.snapshotPath L directory = some f)) :
    ((QueueOrdered r directory c.scheduleNow (handleCall L s c) ∧
        ({ fullname := f, deleteAt := t + r } : fileToDelete) ∈ (handleCall L s c).1.filesToDelete) ∨
      ((handleCall L s c).1.directory = directory ∧ (handleCall L s c).2.files f = none ∧
        t + r ≤ c.scheduleNow)) ∧
    (t + r ≤ c.sweepNow → (handleCall L s c).2.files f = none) := by
  obtain ⟨hdir, _⟩ := Handle_directory L c.faults c.sweepNow c.scheduleNow s.1 s.2 c.event
  have hfiles : s.1.directory = directory → t + r ≤ c.sweepNow →
      (deleteOldFiles c.faults c.sweepNow s.1 s.2).2.files f = none →
      (handleCall L s c).2.files f = none := by
    intro hd hdue hsw
    show (Handle L c.faults c.sweepNow c.scheduleNow s.1 s.2 c.event).2.1.files f = none
    rw [Handle_files_not_added]
    · exact hsw
    · rw [hd]; exact hadd hdue
  rcases hP with ⟨hord, hmem⟩ | ⟨hd, hnone, hT⟩
  · by_cases hdue : t + r ≤ c.sweepNow
    · have hgone : (handleCall L s c).2.files f = none := by
        apply hfiles hord.2.1 hdue
        apply deleteOldFiles_files_removed _ _ _ _ _ hremove
        exact ⟨_, sorted_mem_takeWhile c.sweepNow _ hord.2.2.1 _ hmem hdue, rfl⟩
      exact ⟨Or.inr ⟨hdir.trans hord.2.1, hgone, by omega⟩, fun _ => hgone⟩
    · refine ⟨Or.inl ⟨QueueOrdered_handleCall L r directory T s c hord h1 h2, ?_⟩,
        fun h => absurd h hdue⟩
      simp only [handleCall, Handle_queue, List.mem_append]
      left
      apply mem_dropWhile_of_future _ _ _ hmem
      show c.sweepNow < t + r
      omega
  · have hdue : t + r ≤ c.sweepNow := by omega
    have hgone : (handleCall L s c).2.files f = none :=
      hfiles hd hdue (deleteOldFiles_files_none _ _ _ _ _ hnone)
    exact ⟨Or.inr ⟨hdir.trans hd, hgone, by omega⟩, fun _ => hgone⟩

theorem handleAll_removes_due (L : StdLib) (r : Int) (directory f : String) (t : Int)
    (calls : List Call) : ∀ (T : Int) (s : PodMetaWriter × World),
      ((QueueOrdered r directory T s ∧
          ({ fullname := f, deleteAt := t + r } : fileToDelete) ∈ s.1.filesToDelete) ∨
        (s.1.directory = directory ∧ s.2.files f = none ∧ t + r ≤ T)) →
      clockFrom T calls →
      (∀ c ∈ calls, ∀ i, c.faults.removeErr i f = none) →
      (∀ c ∈ calls, t + r ≤ c.sweepNow →
        ¬ (c.event.Typ = watch.Added ∧ c.event.snapshotPath L directory = some f)) →
      ((QueueOrdered r directory (lastClock T calls) (handleAll L s calls) ∧
          ({ fullname := f, deleteAt := t + r } : fileToDelete)
            ∈ (handleAll L s calls).1.filesToDelete) ∨
        ((handleAll L s calls).1.directory = directory ∧
          (handleAll L s calls).2.files f = none ∧ t + r ≤ lastClock T calls)) := by
  induction calls with
  | nil => intro T s h _ _ _; exact h
  | cons c cs ih =>
    intro T s hP hc hrem hadd
    obtain ⟨h1, h2, h3⟩ := hc
    have hstep := (handleCall_removes_due L r directory f t T s c hP h1 h2
      (hrem c (List.mem_cons_self _ _)) (hadd c (List.mem_cons_self _ _))).1
    exact ih c.scheduleNow _ hstep h3
      (fun c' hc' => hrem c' (List.mem_cons_of_mem _ hc'))
      (fun c' hc' => hadd c' (List.mem_cons_of_mem _ hc'))

/-- C4 (as amended): on a freshly constructed writer, under a clock that never goes
back, let a `Deleted` event for a pod be scheduled at clock `t`. After any later call
that sweeps at `t + retention` or later, the snapshot file of the pod is absent,
provided removing it does not fail and no `Added` event for the same file was handled
by a call sweeping at `t + retention` or later. -/
theorem deleted_snapshot_removed_after_retention (L : StdLib) (F0 : Faults)
    (directory : String) (r : Int) (wd0 : World) (T0 : Int) (pre post : List Call)
    (d last : Call) (pod : Pod)
    (hclock : clockFrom T0 (pre ++ d :: (post ++ [last])))
    (hd : d.event = { Meta := some pod, Typ := watch.Deleted })
    (hdue : d.scheduleNow + r ≤ last.sweepNow)
    (hremove : ∀ c ∈ post ++ [last], ∀ i,
      c.faults.removeErr i (L.Join directory (filenameForPod pod)) = none)
    (hadd : ∀ c ∈ post ++ [last], d.scheduleNow + r ≤ c.sweepNow →
      ¬ (c.event.Typ = watch.Added ∧
        c.event.snapshotPath L directory = some (L.Join directory (filenameForPod pod)))) :
    (handleAll L (NewPodMetaWriter L F0 directory r wd0) (pre ++ d :: (post ++ [last]))).2.files
      (L.Join directory (filenameForPod pod)) = none := by
  obtain ⟨hc1, hc2⟩ := (clockFrom_append pre T0 (d :: (post ++ [last]))).mp hclock
  obtain ⟨hd1, hd2, hc3⟩ := hc2
  obtain ⟨hc4, hc5⟩ := (clockFrom_append post d.scheduleNow [last]).mp hc3
  have hord := QueueOrdered_handleAll L r directory pre T0 _
    (QueueOrdered_fresh L F0 directory r wd0 T0) hc1
  rw [handleAll_append, handleAll_cons, handleAll_append, handleAll_cons]
  generalize handleAll L (NewPodMetaWriter L F0 directory r wd0) pre = s1 at hord ⊢
  have hord2 := QueueOrdered_handleCall L r directory _ s1 d hord hd1 hd2
  have hmem : (⟨L.Join directory (filenameForPod pod), d.scheduleNow + r⟩ : fileToDelete)
      ∈ (handleCall L s1 d).1.filesToDelete := by
    simp only [handleCall, Handle_queue, List.mem_append, hd, if_true, List.mem_singleton]
    right
    show _ = (⟨L.Join s1.1.directory (filenameForPod pod), d.scheduleNow + s1.1.retention⟩ :
      fileToDelete)
    rw [hord.1, hord.2.1]
  have hpost := handleAll_removes_due L r directory _ d.scheduleNow post d.scheduleNow _
    (Or.inl ⟨hord2, hmem⟩) hc4
    (fun c hc => hremove c (List.mem_append_left _ hc))
    (fun c hc => hadd c (List.mem_append_left _ hc))
  obtain ⟨h1, h2, _⟩ := hc5
  exact (handleCall_removes_due L r directory _ d.scheduleNow _ _ last hpost h1 h2
    (hremove last (by simp)) (hadd last (by simp))).2 hdue

/-! ## Examples and counterexamples -/

/-- C2 (counterexample): retention 3; `Added` at 0, `Deleted` at 1, `Added` again at 2,
a bookmark at 4. No operation fails (nothing is logged), the last `Added` or `Deleted`
event of the pod is an `Added`, and the ticket of the earlier `Deleted` removes the file. -/
theorem last_added_snapshot_lost :
    clockFrom 0 [exampleCall 0 watch.Added, exampleCall 1 watch.Deleted,
      exampleCall 2 watch.Added, bookmarkCall 4] ∧
    (handleAll exampleLib exampleWriter [exampleCall 0 watch.Added, exampleCall 1 watch.Deleted,
      exampleCall 2 watch.Added]).2.files etcdPath = some (exampleLib.Encode etcdPod) ∧
    (handleAll exampleLib exampleWriter [exampleCall 0 watch.Added, exampleCall 1 watch.Deleted,
      exampleCall 2 watch.Added, bookmarkCall 4]).2.files etcdPath = none ∧
    (handleAll exampleLib exampleWriter [exampleCall 0 watch.Added, exampleCall 1 watch.Deleted,
      exampleCall 2 watch.Added, bookmarkCall 4]).2.log = [] := by
  refine ⟨?_, ?_, ?_, ?_⟩
  · simp [clockFrom, exampleCall, bookmarkCall]
  · decide
  · decide
  · decide

theorem last_added_snapshot_survives_witness :
    (handleAll exampleLib (NewPodMetaWriter exampleLib Faults.none "/var/kube_meta" 3 emptyWorld)
      ([exampleCall 0 watch.Added, exampleCall 1 watch.Deleted] ++
        exampleCall 5 watch.Added :: [bookmarkCall 6, exampleCall 7 watch.Modified])).2.files
      (exampleLib.Join "/var/kube_meta" (filenameForPod etcdPod))
      = some (exampleLib.Encode etcdPod) :=
  last_added_snapshot_survives exampleLib Faults.none "/var/kube_meta" 3 emptyWorld 0
    [exampleCall 0 watch.Added, exampleCall 1 watch.Deleted]
    [bookmarkCall 6, exampleCall 7 watch.Modified] (exampleCall 5 watch.Added) etcdPod
    (by simp [clockFrom, exampleCall]) rfl rfl rfl (by decide) (by decide)

/-- C3 (counterexample): retention 3; after `Added` at 0 and `Deleted` at 1 the file
exists. A second `Deleted` at `t = 2` leaves it in place, and the bookmark at 4, before
`t + 3`, removes it through the ticket of the first `Deleted`. -/
theorem deleted_file_removed_before_retention :
    (handleAll exampleLib exampleWriter
      [exampleCall 0 watch.Added, exampleCall 1 watch.Deleted]).2.files etcdPath
        = some (exampleLib.Encode etcdPod) ∧
    (handleAll exampleLib
      (handleAll exampleLib exampleWriter [exampleCall 0 watch.Added, exampleCall 1 watch.Deleted])
      [exampleCall 2 watch.Deleted]).2.files etcdPath = some (exampleLib.Encode etcdPod) ∧
    (bookmarkCall 4).sweepNow < (exampleCall 2 watch.Deleted).scheduleNow + exampleWriter.1.retention ∧
    (handleAll exampleLib
      (handleAll exampleLib exampleWriter [exampleCall 0 watch.Added, exampleCall 1 watch.Deleted])
      [exampleCall 2 watch.Deleted, bookmarkCall 4]).2.files etcdPath = none := by
  refine ⟨?_, ?_, ?_, ?_⟩ <;> decide

theorem Handle_deleted_defers_removal_witness :
    (handleAll exampleLib
      (handleCall exampleLib
        ({ retention := 3, directory := "/var/kube_meta", filesToDelete := [] },
          { files := fun _ => some "etcd-json", log := [] })
        { faults := Faults.none, sweepNow := 2, scheduleNow := 2
          event := { Meta := some etcdPod, Typ := watch.Deleted } })
      ([bookmarkCall 3, exampleCall 4 watch.Added].take 2)).2.files
      (PodMetaWriter.fullname exampleLib
        { retention := 3, directory := "/var/kube_meta", filesToDelete := [] } etcdPod) ≠ none :=
  (Handle_deleted_defers_removal exampleLib Faults.none 2 2
    { retention := 3, directory := "/var/kube_meta", filesToDelete := [] }
    { files := fun _ => some "etcd-json", log := [] } etcdPod "etcd-json"
    [bookmarkCall 3, exampleCall 4 watch.Added] rfl (by decide) (by decide)).2.2 2

/-- C4 (counterexample): retention 3; `Added` at 0, `Deleted` at `t = 1`, and an `Added`
event for the same pod handled at 4, which is `t + 3`. No operation fails, and after
that call the file is present. -/
theorem deleted_file_present_after_retention :
    clockFrom 0 [exampleCall 0 watch.Added, exampleCall 1 watch.Deleted,
      exampleCall 4 watch.Added] ∧
    (exampleCall 1 watch.Deleted).scheduleNow + exampleWriter.1.retention
      ≤ (exampleCall 4 watch.Added).sweepNow ∧
    (handleAll exampleLib exampleWriter [exampleCall 0 watch.Added, exampleCall 1 watch.Deleted,
      exampleCall 4 watch.Added]).2.files etcdPath = some (exampleLib.Encode etcdPod) ∧
    (handleAll exampleLib exampleWriter [exampleCall 0 watch.Added, exampleCall 1 watch.Deleted,
      exampleCall 4 watch.Added]).2.log = [] := by
  refine ⟨?_, ?_, ?_, ?_⟩
  · simp [clockFrom, exampleCall]
  · decide
  · decide
  · decide

theorem deleted_snapshot_removed_after_retention_witness :
    (handleAll exampleLib (NewPodMetaWriter exampleLib Faults.none "/var/kube_meta" 3 emptyWorld)
      ([exampleCall 0 watch.Added] ++ exampleCall 1 watch.Deleted ::
        ([exampleCall 2 watch.Added] ++ [bookmarkCall 4]))).2.files
      (exampleLib.Join "/var/kube_meta" (filenameForPod etcdPod)) = none :=
  deleted_snapshot_removed_after_retention exampleLib Faults.none "/var/kube_meta" 3 emptyWorld 0
    [exampleCall 0 watch.Added] [exampleCall 2 watch.Added] (exampleCall 1 watch.Deleted)
    (bookmarkCall 4) etcdPod (by simp [clockFrom, exampleCall, bookmarkCall]) rfl (by decide)
    (by intro c hc i; simp at hc; rcases hc with rfl | rfl <;> rfl) (by decide)

/-- Removal of `/d/a.meta` fails at a bookmark handled at clock 5: the ticket after it
is still processed, both due tickets are popped, and `Handle` returns nil. -/
theorem Handle_error_iff_write_fails_witness :
    (deleteOldFiles denyA 5 threeTickets fullWorld).2.files "/d/b.meta" = none ∧
    (Handle exampleLib denyA 5 5 threeTickets fullWorld
      { Meta := none, Typ := watch.Bookmark }).1.filesToDelete = [⟨"/d/c.meta", 10⟩] ∧
    (Handle exampleLib denyA 5 5 threeTickets fullWorld
      { Meta := none, Typ := watch.Bookmark }).2.1.files "/d/a.meta" = some "x" ∧
    (Handle exampleLib denyA 5 5 threeTickets fullWorld
      { Meta := none, Typ := watch.Bookmark }).2.2 = Outcome.returned none :=
  ⟨(Handle_error_iff_write_fails exampleLib denyA 5 5 threeTickets fullWorld
      { Meta := none, Typ := watch.Bookmark }).2.2 ⟨"/d/b.meta", 2⟩ (by decide) (fun _ => rfl),
    by decide, by decide, by decide⟩

theorem Handle_other_event_is_sweep_witness :
    Handle exampleLib Faults.none 0 0 exampleWriter.1 exampleWriter.2
        { Meta := some etcdPod, Typ := watch.Modified } =
      ((deleteOldFiles Faults.none 0 exampleWriter.1 exampleWriter.2).1,
        (deleteOldFiles Faults.none 0 exampleWriter.1 exampleWriter.2).2,
        Outcome.returned none) ∧
    (Handle exampleLib Faults.none 0 0 exampleWriter.1 exampleWriter.2
        { Meta := some etcdPod, Typ := watch.Modified }).2.1.files etcdPath = none :=
  ⟨(Handle_other_event_is_sweep exampleLib Faults.none 0 0 exampleWriter.1 exampleWriter.2
      { Meta := some etcdPod, Typ := watch.Modified } (by decide) (by decide)).1,
    by decide⟩

theorem staleWorld_entries (name : String)
    (h : staleWorld.files ("/tmp/d" ++ "/" ++ name) ≠ none) :
    name = "test-file.meta" ∨ name = "notes.txt" := by
  have hcancel : ∀ other : String, "/tmp/d" ++ "/" ++ name = "/tmp/d" ++ "/" ++ other →
      name = other := by
    intro other e
    have hd := congrArg String.data e
    simp only [String.data_append] at hd
    exact String.ext (List.append_cancel_left hd)
  by_cases h1 : "/tmp/d" ++ "/" ++ name = "/tmp/d/test-file.meta"
  · exact Or.inl (hcancel "test-file.meta" h1)
  · by_cases h2 : "/tmp/d" ++ "/" ++ name = "/tmp/d/notes.txt"
    · exact Or.inr (hcancel "notes.txt" h2)
    · have hnone : staleWorld.files ("/tmp/d" ++ "/" ++ name) = none := by
        show (if "/tmp/d" ++ "/" ++ name = "/tmp/d/test-file.meta" then some ""
          else if "/tmp/d" ++ "/" ++ name = "/tmp/d/notes.txt" then some "keep" else none)
            = none
        rw [if_neg h1, if_neg h2]
      exact absurd hnone h

/-- The stale `test-file.meta` of the tests is gone after construction, the other file
of the directory is kept, and the queue is empty. -/
theorem NewPodMetaWriter_removes_meta_files_witness :
    (NewPodMetaWriter staleLib Faults.none "/tmp/d" 3 staleWorld).2.files
      (staleLib.Join "/tmp/d" "test-file.meta") = none ∧
    (NewPodMetaWriter staleLib Faults.none "/tmp/d" 3 staleWorld).2.files "/tmp/d/notes.txt"
      = some "keep" ∧
    (NewPodMetaWriter staleLib Faults.none "/tmp/d" 3 staleWorld).1.filesToDelete = [] :=
  ⟨(NewPodMetaWriter_removes_meta_files staleLib Faults.none "/tmp/d" 3 staleWorld
      ["/tmp/d/test-file.meta"] rfl
      (by
        intro name hname hfile
        rcases staleWorld_entries name hfile with rfl | rfl
        · decide
        · exact absurd hname (by decide))
      (by
        intro path hpath
        exact ⟨"test-file.meta", by decide, by simpa using hpath⟩)
      (fun _ _ => rfl)).1 "test-file.meta" (by decide),
    by decide, by decide⟩

/-- C7 (counterexample): the stale snapshot `s.meta` in the directory `/tmp/d[x`
survives construction. `filepath.Glob` rejects `/tmp/d[x/*.meta` as a malformed
pattern, `removeAllMetaFiles` returns that error before any removal, and the
constructor drops it; no removal fails, and nothing is logged. -/
theorem NewPodMetaWriter_keeps_meta_file_in_bracket_directory :
    matchesGloggingPattern "s.meta" = true ∧
    bracketWorld.files (bracketLib.Join "/tmp/d[x" "s.meta") = some "old" ∧
    (removeAllMetaFiles bracketLib Faults.none
      { retention := 3, directory := "/tmp/d[x", filesToDelete := [] } bracketWorld).2
        = some "syntax error in pattern" ∧
    (NewPodMetaWriter bracketLib Faults.none "/tmp/d[x" 3 bracketWorld).2.files
      (bracketLib.Join "/tmp/d[x" "s.meta") = some "old" ∧
    (NewPodMetaWriter bracketLib Faults.none "/tmp/d[x" 3 bracketWorld).2.log = [] := by
  refine ⟨?_, ?_, ?_, ?_, ?_⟩ <;> decide

theorem watchHandler_forwards_exactly_witness :
    (watchHandler (exampleItems.map (fun ev => Select.recv ev true))).sent
      = [{ Meta := some etcdPod, Typ := watch.Added }] :=
  (watchHandler_forwards_exactly exampleItems).1.trans (by decide)

/-- A tracker that is started, whose worker forwards one event and is then cancelled:
the second start fails, the trace ends by closing the channel and clearing the flag,
and a start after that succeeds. -/
theorem TrackPods_single_session_witness :
    (TrackPods (TrackPods NewPodTracker 0 "node").tracker 1 "node").err
      = some "already tracking" ∧
    (watcherWorker (fun _ => false)
      [Attempt.watching [Select.recv ⟨watch.Added, RuntimeObject.pod (some etcdPod)⟩ true,
        Select.done]]).1
      = [Effect.send ⟨some etcdPod, watch.Added⟩, Effect.closeEvents, Effect.clearRunning] ∧
    (TrackPods (Session.run ⟨(TrackPods NewPodTracker 0 "node").tracker, false, []⟩
      (watcherWorker (fun _ => false)
        [Attempt.watching [Select.recv ⟨watch.Added, RuntimeObject.pod (some etcdPod)⟩ true,
          Select.done]]).1).tracker 1 "node").err = none :=
  ⟨((TrackPods_single_session NewPodTracker 0 1 "node" (fun _ => false)
      [Attempt.watching [Select.recv ⟨watch.Added, RuntimeObject.pod (some etcdPod)⟩ true,
        Select.done]]
      ⟨(TrackPods NewPodTracker 0 "node").tracker, false, []⟩).2.2.1 rfl).2.2.2.2,
    by decide, by decide⟩

end PodMetaExporter
